import Mathlib

/-!
# owncloud-upload-cleaner: a shallow embedding of `cleaner.go`

The program scans one directory (`scanFiles`), classifies every scanned file
as kept, empty or duplicate (`evaluateFiles`) and then moves or deletes the
files that are not kept (`processFiles` / `processFile`).

Modelling conventions

* The package-level variables of `cleaner.go` (flags, counters and the
  `allMD5` map) are the fields of `Globals`; every function that touches them
  passes a `Globals` value explicitly.
* Go's `int` counters are natural numbers: the counters only ever grow by one
  or by a file size, and the development assumes they stay below `2^63`.
* The operating system is a small filesystem model `FS` (a finite map from
  clean slash-separated paths to nodes) with `os.MkdirAll`, `os.Rename`,
  `os.Remove` and the file read of `MD5Sum`. `os.ReadDir` is an input of
  `scanFiles`.
* A goroutine is its sequential body. A channel it writes is the list of the
  values it has sent together with a flag telling whether it closed the
  channel. The readiness of `ctx.Done()` at the n-th pass through a `select`
  is an input `ctx : Nat → Bool`.
* A send on a channel blocks when the buffer is full and nobody receives any
  more. Each stage takes `room`, the number of sends on its output channel
  that can still complete: `none` when the reader keeps receiving, `some n`
  when the reader stops and only `n` more values are taken or fit the buffer.
* `panic` (in `MD5Sum`) and waiting for ever on a channel are explicit
  outcomes.
* `runPipeline` composes the stages one after the other: every file is hashed
  on the filesystem the run starts from. The executor only touches files that
  were classified before, and the names of a directory listing are distinct,
  so the digests do not depend on how the goroutines interleave.
-/

namespace Cleaner

/-! ## Data model -/

/-- Go: `type Action int` with the constants `NoAction`, `DeleteAction`,
`MoveAction`. -/
inductive Action where
  | NoAction
  | DeleteAction
  | MoveAction
  deriving DecidableEq, Repr

/-- Go: `type Reason int` with the constants `NoReason`, `ZeroByteReason`,
`DuplicateReason`. -/
inductive Reason where
  | NoReason
  | ZeroByteReason
  | DuplicateReason
  deriving DecidableEq, Repr

/-- The part of `fs.FileInfo` the program reads: `Name()` and `Size()`. -/
structure FileInfo where
  Name : String
  Size : Nat
  deriving DecidableEq, Repr

/-- Go: `type File struct`. -/
structure File where
  FileInfo : FileInfo
  MD5Sum : String
  FileName : String
  FilePath : String
  OriginalFileName : String
  OriginalFilePath : String
  Action : Action
  Reason : Reason
  deriving DecidableEq, Repr

/-- The package-level variables of `cleaner.go`: the flag values, the
accounting counters and the duplicate table `allMD5`. -/
structure Globals where
  baseDir : String
  dryRun : Bool
  mode : Action
  evaluatedFileCounter : Nat
  uniqueKeepFiles : Nat
  emptyFileCounter : Nat
  duplicateFileCounter : Nat
  processedFileCounter : Nat
  skippedDirectoryCounter : Nat
  skippedExtensionFilesCounter : Nat
  totalFileSizeCounter : Nat
  processedFileSizeCounter : Nat
  allMD5 : String → Option File

/-- The values the package-level variables have when the process starts:
every counter is `0` and `allMD5` is `map[string]File{}`. -/
def Globals.initial (baseDir : String) (dryRun : Bool) (mode : Action) : Globals :=
  { baseDir := baseDir, dryRun := dryRun, mode := mode,
    evaluatedFileCounter := 0, uniqueKeepFiles := 0, emptyFileCounter := 0,
    duplicateFileCounter := 0, processedFileCounter := 0,
    skippedDirectoryCounter := 0, skippedExtensionFilesCounter := 0,
    totalFileSizeCounter := 0, processedFileSizeCounter := 0,
    allMD5 := fun _ => none }

/-! ## Operating system model -/

/-- Errors returned by the operating system calls. -/
inductive OsError where
  | notExist
  | notDir
  | isDir
  | readDirFailed
  | infoFailed
  deriving DecidableEq, Repr

/-- A filesystem node: a directory, or a regular file with its size and the
hex MD5 digest of its content. -/
inductive Node where
  | dir
  | file (size : Nat) (md5 : String)
  deriving DecidableEq, Repr

/-- A filesystem state: the node stored at each path, if any. -/
abbrev FS := String → Option Node

/-- Writes (or, with `none`, erases) the node at one path. -/
def FS.set (fs : FS) (path : String) (n : Option Node) : FS :=
  fun p => if p = path then n else fs p

/-- Go: `filepath.Join(dir, name)` for a clean directory path and a plain
entry name. -/
def filepathJoin (dir name : String) : String :=
  dir ++ "/" ++ name

/-- The characters after the last `/` (all of them when there is none). -/
def lastElem : List Char → List Char
  | [] => []
  | c :: cs => if cs.contains '/' then lastElem cs else if c = '/' then cs else c :: cs

/-- Go: `filepath.Base(path)` for a clean slash-separated path. -/
def filepathBase (path : String) : String :=
  String.mk (lastElem path.toList)

/-- Go: `filepath.Dir(path)` for a clean slash-separated path: the path
without its last element and the separator before it. -/
def filepathDir (path : String) : String :=
  String.mk (path.toList.take (path.toList.length - (lastElem path.toList).length - 1))

/-- Go: `os.MkdirAll(path, perm)`. Nothing happens when `path` is already a
directory, it is an error when `path` is a file, and otherwise the directory
is created (its parent is taken to exist). -/
def osMkdirAll (fs : FS) (path : String) : FS × Option OsError :=
  match fs path with
  | some Node.dir => (fs, none)
  | some (Node.file _ _) => (fs, some OsError.notDir)
  | none => (fs.set path (some Node.dir), none)

/-- Go: `os.Rename(oldpath, newpath)`. Fails when `oldpath` does not exist or
`newpath` is a directory; otherwise the node moves to `newpath`, replacing a
file that was there. -/
def osRename (fs : FS) (oldpath newpath : String) : FS × Option OsError :=
  match fs oldpath with
  | none => (fs, some OsError.notExist)
  | some n =>
    match fs newpath with
    | some Node.dir => (fs, some OsError.isDir)
    | _ => ((fs.set oldpath none).set newpath (some n), none)

/-- Go: `os.Remove(name)`. Fails when `name` does not exist; otherwise the
node is removed. -/
def osRemove (fs : FS) (name : String) : FS × Option OsError :=
  match fs name with
  | none => (fs, some OsError.notExist)
  | some _ => (fs.set name none, none)

/-- Go: `MD5Sum(filepath)`. The digest of the file at `filepath`; `none`
stands for the `panic` raised when the file cannot be opened or read. -/
def MD5Sum (fs : FS) (filepath : String) : Option String :=
  match fs filepath with
  | some (Node.file _ md5) => some md5
  | _ => none

/-! ## Scanner -/

/-- One `fs.DirEntry` returned by `os.ReadDir`: `Name()`, `IsDir()` and the
size reported by `Info()`, `none` when `Info()` returns an error. -/
structure DirEntry where
  Name : String
  IsDir : Bool
  InfoSize : Option Nat
  deriving DecidableEq, Repr

/-- Go: `f.Info()`. -/
def DirEntry.Info (f : DirEntry) : Option FileInfo :=
  f.InfoSize.map (fun s => { Name := f.Name, Size := s })

/-- The alternatives of the regular expression in `scanFiles`. -/
def supportedTypes : List String := ["jpg", "jpeg", "dng", "mpg", "mp4"]

/-- Go: `regexSupportedType.MatchString(name)` for the pattern
`\.(jpg|jpeg|dng|mpg|mp4)$`. The pattern is not anchored at the start, so it
matches when, from some position on, the text is a dot, one alternative and
then the end of the text. -/
def regexSupportedTypeMatch (name : String) : Bool :=
  name.toList.tails.any (fun t => supportedTypes.any (fun e => t == '.' :: e.toList))

/-- Go: `len(s)`, the number of bytes of a string. -/
def len (s : String) : Nat := s.utf8ByteSize

/-- The `less` function `scanFiles` hands to `sort.Slice`. -/
def lessByNameLen (a b : FileInfo) : Bool :=
  decide (len a.Name < len b.Name)

/-- Inserts `x` into a list ordered by `less`, after the elements that are
less than `x`. -/
def orderedInsert (less : α → α → Bool) (x : α) : List α → List α
  | [] => [x]
  | y :: ys => if less y x then y :: orderedInsert less x ys else x :: y :: ys

/-- Go: `sort.Slice(xs, less)`. The result is ordered by `less`; the order
Go gives to elements that compare equal is not specified, and this model
keeps their input order. -/
def sortSlice (less : α → α → Bool) : List α → List α
  | [] => []
  | x :: xs => orderedInsert less x (sortSlice less xs)

/-- The loop of `scanFiles` over the directory entries: `matching` is
`matchingFiles`, the result is `none` after a failed `f.Info()`. -/
def scanLoop : List DirEntry → Globals → List FileInfo → Globals × Option (List FileInfo)
  | [], g, matching => (g, some matching)
  | f :: rest, g, matching =>
    if f.IsDir then
      scanLoop rest { g with skippedDirectoryCounter := g.skippedDirectoryCounter + 1 } matching
    else
      match f.Info with
      | none => (g, none)
      | some file =>
        if !regexSupportedTypeMatch file.Name then
          scanLoop rest
            { g with skippedExtensionFilesCounter := g.skippedExtensionFilesCounter + 1 } matching
        else
          scanLoop rest g (matching ++ [file])

/-- Go: `scanFiles(dir)`. `readDir` is what `os.ReadDir(dir)` returned. -/
def scanFiles (readDir : Except OsError (List DirEntry)) (g : Globals) :
    Globals × Except OsError (List FileInfo) :=
  match readDir with
  | Except.error err => (g, Except.error err)
  | Except.ok files =>
    match scanLoop files g [] with
    | (g1, none) => (g1, Except.error OsError.infoFailed)
    | (g1, some matchingFiles) => (g1, Except.ok (sortSlice lessByNameLen matchingFiles))

/-! ## Classifier -/

/-- The body of the loop of `evaluateFiles` for one `file`, after the
cancellation check and once `MD5Sum` has returned `md5`: the new globals and
the record sent on `outChannel`. -/
def evaluateFile (mode : Action) (g : Globals) (file : FileInfo) (md5 : String) :
    Globals × File :=
  let fp := filepathJoin g.baseDir file.Name
  let f : File :=
    { FileInfo := file, MD5Sum := md5, FileName := file.Name, FilePath := fp,
      OriginalFileName := file.Name, OriginalFilePath := fp,
      Action := Action.NoAction, Reason := Reason.NoReason }
  -- if file.Size() == 0 { ... }
  let (f, g) :=
    if file.Size = 0 then
      ({ f with Action := mode, Reason := Reason.ZeroByteReason },
       { g with emptyFileCounter := g.emptyFileCounter + 1 })
    else (f, g)
  -- orig, exists := allMD5[md5]; if exists && file.Size() != 0 { ... } else { ... }
  let (f, g) :=
    match g.allMD5 md5 with
    | some orig =>
      if file.Size ≠ 0 then
        ({ f with Action := mode, Reason := Reason.DuplicateReason,
                  OriginalFileName := orig.FileName, OriginalFilePath := orig.FilePath },
         { g with duplicateFileCounter := g.duplicateFileCounter + 1 })
      else
        (f, { g with uniqueKeepFiles := g.uniqueKeepFiles + 1,
                     allMD5 := fun k => if k = md5 then some f else g.allMD5 k })
    | none =>
      (f, { g with uniqueKeepFiles := g.uniqueKeepFiles + 1,
                   allMD5 := fun k => if k = md5 then some f else g.allMD5 k })
  ({ g with evaluatedFileCounter := g.evaluatedFileCounter + 1,
            totalFileSizeCounter := g.totalFileSizeCounter + file.Size }, f)

/-- How a pipeline stage ended: it returned, it panicked, or it waits for
ever on a channel (a receive from a channel that is neither fed nor closed,
or a send on a full channel that nobody reads). -/
inductive Ending where
  | returned
  | panicked
  | blocked
  deriving DecidableEq, Repr

/-- What a run of `evaluateFiles` leaves behind: the globals, the records
sent on `outChannel` in sending order, whether `outChannel` was closed, and
how the function ended. -/
structure Evaluated where
  g : Globals
  out : List File
  closed : Bool
  ending : Ending

/-- One send fewer can complete. -/
def roomAfterSend (room : Option Nat) : Option Nat :=
  room.map (fun n => n - 1)

/-- Go: `evaluateFiles(ctx, files, mode, outChannel)`. `fs` is the
filesystem `MD5Sum` reads; `ctx n` tells whether `ctx.Done()` is ready at
the n-th pass through the loop; `room` is the number of sends on
`outChannel` that can complete. The send comes after the counters and the
table were updated, and it is not part of a `select`: with no room left the
function waits for ever. -/
def evaluateFiles (fs : FS) (ctx : Nat → Bool) (room : Option Nat) (mode : Action) :
    List FileInfo → Globals → Evaluated
  | [], g => { g := g, out := [], closed := true, ending := Ending.returned }
  | file :: rest, g =>
    if ctx 0 then
      { g := g, out := [], closed := false, ending := Ending.returned }
    else
      match MD5Sum fs (filepathJoin g.baseDir file.Name) with
      | none => { g := g, out := [], closed := false, ending := Ending.panicked }
      | some md5 =>
        if room = some 0 then
          { g := (evaluateFile mode g file md5).1, out := [], closed := false,
            ending := Ending.blocked }
        else
          let r := evaluateFiles fs (fun n => ctx (n + 1)) (roomAfterSend room) mode rest
            (evaluateFile mode g file md5).1
          { r with out := (evaluateFile mode g file md5).2 :: r.out }

/-! ## Executor -/

/-- The state the executor works on: the package-level variables and the
filesystem. -/
structure World where
  g : Globals
  fs : FS

/-- Go: `createMoveFolder(parentDir)`. -/
def createMoveFolder (fs : FS) (parentDir : String) : String × FS × Option OsError :=
  let path := filepathJoin parentDir "moved"
  let (fs1, err) := osMkdirAll fs path
  (path, fs1, err)

/-- Go: `processFile(f)`: the new state and the returned `err`. -/
def processFile (w : World) (f : File) : World × Option OsError :=
  let dir := filepathDir f.FilePath
  let filename := filepathBase f.FilePath
  match f.Action with
  | Action.MoveAction =>
    let g1 := { w.g with processedFileCounter := w.g.processedFileCounter + 1 }
    let g2 := { g1 with processedFileSizeCounter := g1.processedFileSizeCounter + f.FileInfo.Size }
    match createMoveFolder w.fs dir with
    | (_, fs1, some err) => ({ g := g2, fs := fs1 }, some err)
    | (dest, fs1, none) =>
      let destFile := filepathJoin dest filename
      if g2.dryRun then ({ g := g2, fs := fs1 }, none)
      else
        let (fs2, err) := osRename fs1 f.FilePath destFile
        ({ g := g2, fs := fs2 }, err)
  | Action.DeleteAction =>
    let g1 := { w.g with processedFileCounter := w.g.processedFileCounter + 1 }
    let g2 := { g1 with processedFileSizeCounter := g1.processedFileSizeCounter + f.FileInfo.Size }
    if g2.dryRun then ({ g := g2, fs := w.fs }, none)
    else
      let (fs1, err) := osRemove w.fs f.FilePath
      ({ g := g2, fs := fs1 }, err)
  | Action.NoAction => (w, none)

/-- What a run of `processFiles` leaves behind: the state, the records
`processFile` was called on in calling order, the records sent on
`outChannel`, whether `outChannel` was closed, how the function ended and
the error it returned. -/
structure Processed where
  w : World
  applied : List File
  out : List File
  closed : Bool
  ending : Ending
  err : Option OsError

/-- Go: `processFiles(ctx, inChannel, outChannel)`. The list is what
`inChannel` still delivers and `inClosed` tells whether it is closed after
that; `ctx n` tells whether the n-th `select` takes the `ctx.Done()` case
(on an input that is drained and not closed: whether `ctx.Done()` ever gets
ready); `room` is the number of sends on `outChannel` that can complete. -/
def processFiles (ctx : Nat → Bool) (inClosed : Bool) (room : Option Nat) :
    List File → World → Processed
  | [], w =>
    if ctx 0 then
      { w := w, applied := [], out := [], closed := false, ending := Ending.returned, err := none }
    else if inClosed then
      { w := w, applied := [], out := [], closed := true, ending := Ending.returned, err := none }
    else
      { w := w, applied := [], out := [], closed := false, ending := Ending.blocked, err := none }
  | f :: rest, w =>
    if ctx 0 then
      { w := w, applied := [], out := [], closed := false, ending := Ending.returned, err := none }
    else
      match processFile w f with
      | (w1, some err) =>
        { w := w1, applied := [f], out := [], closed := false, ending := Ending.returned,
          err := some err }
      | (w1, none) =>
        if room = some 0 then
          { w := w1, applied := [f], out := [], closed := false, ending := Ending.blocked,
            err := none }
        else
          let r := processFiles (fun n => ctx (n + 1)) inClosed (roomAfterSend room) rest w1
          { r with applied := f :: r.applied, out := f :: r.out }

/-! ## The pipeline -/

/-- What one run of the pipeline leaves behind. -/
structure RunResult where
  w : World
  scanned : Except OsError (List FileInfo)
  evaluated : List File
  reported : List File

/-- Go: `make(chan File, 100)`, the buffer size of both channels. -/
def channelCapacity : Nat := 100

/-- The pipeline that `main` and the handler of the Start button both set
up: `scanFiles(baseDir)`, then `evaluateFiles` feeding `processFiles` through
`evaluatedChannel`. The two stages are composed one after the other, and
`ctx` is never done (it is `context.Background()`), so the reporting
goroutine keeps receiving. When the executor returns on an error it stops
receiving: the classifier can then complete only as many sends as the
executor received plus the buffer size, and the classifier's counters and
table are those of that shorter run. -/
def runPipeline (readDir : Except OsError (List DirEntry)) (w : World) : RunResult :=
  match scanFiles readDir w.g with
  | (g1, Except.error err) =>
    { w := { w with g := g1 }, scanned := Except.error err, evaluated := [], reported := [] }
  | (g1, Except.ok files) =>
    let e := evaluateFiles w.fs (fun _ => false) none g1.mode files g1
    let p := processFiles (fun _ => false) e.closed none e.out { g := e.g, fs := w.fs }
    match p.err with
    | none => { w := p.w, scanned := Except.ok files, evaluated := e.out, reported := p.out }
    | some _ =>
      let e1 := evaluateFiles w.fs (fun _ => false) (some (p.applied.length + channelCapacity))
        g1.mode files g1
      { w := { g := { e1.g with processedFileCounter := p.w.g.processedFileCounter,
                                processedFileSizeCounter := p.w.g.processedFileSizeCounter },
               fs := p.w.fs },
        scanned := Except.ok files, evaluated := e1.out, reported := p.out }


/-! ## Definitions that follow the wording of the specification -/

/-- The supported extensions as the specification lists them. -/
def supportedSuffixes : List String := [".jpg", ".jpeg", ".dng", ".mpg", ".mp4"]

/-- The specification's inclusion test: the name ends, case-sensitively, in
one of the supported extensions. -/
def hasSupportedSuffix (name : String) : Bool :=
  supportedSuffixes.any (fun s => s.toList.isSuffixOf name.toList)

/-- The entries the specification says the scan keeps: not a directory, and
the name ends in a supported extension. -/
def keptEntries (entries : List DirEntry) : List DirEntry :=
  entries.filter (fun e => !e.IsDir && hasSupportedSuffix e.Name)

/-- The digest `evaluateFiles` computes for a scanned file: `MD5Sum` of the
file's path below `baseDir`. -/
def hashOf (fs : FS) (baseDir : String) (file : FileInfo) : Option String :=
  MD5Sum fs (filepathJoin baseDir file.Name)

/-! ## Concrete inputs -/

/-- The digest of the empty content. -/
def md5Empty : String := "d41d8cd98f00b204e9800998ecf8427e"

/-- The digest standing for the content `X` of the specification's scenario. -/
def md5X : String := "02129bb861061d1a052c592e2dc6b383"

/-- The directory of the specification's scenario: `d` holds `a.jpg` and
`bb.jpg` (content `X`, 100 bytes each) and the empty `c.jpg`. -/
def fsScenario : FS := fun p =>
  if p = "d" then some Node.dir
  else if p = "d/a.jpg" then some (Node.file 100 md5X)
  else if p = "d/bb.jpg" then some (Node.file 100 md5X)
  else if p = "d/c.jpg" then some (Node.file 0 md5Empty)
  else none

/-- What `os.ReadDir` returns for the scenario's directory. -/
def listingScenario : List DirEntry :=
  [ { Name := "a.jpg", IsDir := false, InfoSize := some 100 },
    { Name := "bb.jpg", IsDir := false, InfoSize := some 100 },
    { Name := "c.jpg", IsDir := false, InfoSize := some 0 } ]

/-- The scenario's files in the order `scanFiles` returns them. -/
def filesScenario : List FileInfo :=
  [ { Name := "a.jpg", Size := 100 }, { Name := "c.jpg", Size := 0 },
    { Name := "bb.jpg", Size := 100 } ]

/-- The scenario's files in the order the specification lists them. -/
def filesScenarioSpecOrder : List FileInfo :=
  [ { Name := "a.jpg", Size := 100 }, { Name := "bb.jpg", Size := 100 },
    { Name := "c.jpg", Size := 0 } ]

/-- A directory listing with a sub-directory and an unsupported file. -/
def listingMixed : List DirEntry :=
  [ { Name := "a.jpg", IsDir := false, InfoSize := some 100 },
    { Name := "bb.jpg", IsDir := false, InfoSize := some 100 },
    { Name := "c.jpg", IsDir := false, InfoSize := some 0 },
    { Name := "moved", IsDir := true, InfoSize := some 4096 },
    { Name := "notes.txt", IsDir := false, InfoSize := some 3 } ]

/-- The package-level variables at process start for a run over `d`. -/
def globalsAt (dryRun : Bool) (mode : Action) : Globals :=
  Globals.initial "d" dryRun mode

/-- A directory with one non-empty file. -/
def fsSingle : FS := fun p =>
  if p = "d" then some Node.dir
  else if p = "d/a.jpg" then some (Node.file 100 md5X)
  else none

/-- What `os.ReadDir` returns for `fsSingle`. -/
def listingSingle : List DirEntry :=
  [ { Name := "a.jpg", IsDir := false, InfoSize := some 100 } ]

/-- A record as the classifier builds it. -/
def recordOf (name : String) (size : Nat) (md5 : String) (action : Action) (reason : Reason) :
    File :=
  { FileInfo := { Name := name, Size := size }, MD5Sum := md5, FileName := name,
    FilePath := filepathJoin "d" name, OriginalFileName := name,
    OriginalFilePath := filepathJoin "d" name, Action := action, Reason := reason }

/-- A directory in which `moved` is a regular file. -/
def fsMovedIsFile : FS := fun p =>
  if p = "d" then some Node.dir
  else if p = "d/moved" then some (Node.file 10 md5X)
  else if p = "d/a.jpg" then some (Node.file 100 md5X)
  else if p = "d/bb.jpg" then some (Node.file 100 md5X)
  else none

/-- Three records for `fsMovedIsFile`: delete the file `moved`, then move
`a.jpg` and `bb.jpg`. -/
def recordsMovedIsFile : List File :=
  [ recordOf "moved" 10 md5X Action.DeleteAction Reason.DuplicateReason,
    recordOf "a.jpg" 100 md5X Action.MoveAction Reason.DuplicateReason,
    recordOf "bb.jpg" 100 md5X Action.MoveAction Reason.DuplicateReason ]

/-- A duplicate table that already holds an entry for the empty digest. -/
def globalsSeenEmpty : Globals :=
  { globalsAt false Action.DeleteAction with
    allMD5 := fun k =>
      if k = md5Empty then
        some (recordOf "z.jpg" 0 md5Empty Action.DeleteAction Reason.ZeroByteReason)
      else none }

/-- The state at process start for a run over `d` on the filesystem `fs`. -/
def worldAt (dryRun : Bool) (mode : Action) (fs : FS) : World :=
  { g := globalsAt dryRun mode, fs := fs }

/-- The records `evaluateFiles` emits for the scenario in Delete mode. -/
def recordsScenario : List File :=
  [ recordOf "a.jpg" 100 md5X Action.NoAction Reason.NoReason,
    recordOf "c.jpg" 0 md5Empty Action.DeleteAction Reason.ZeroByteReason,
    { recordOf "bb.jpg" 100 md5X Action.DeleteAction Reason.DuplicateReason with
      OriginalFileName := "a.jpg", OriginalFilePath := filepathJoin "d" "a.jpg" } ]


/-! ## Scanner: supporting lemmas -/

theorem regexSupportedTypeMatch_eq (name : String) :
    regexSupportedTypeMatch name = hasSupportedSuffix name := by
  rw [Bool.eq_iff_iff]
  simp only [regexSupportedTypeMatch, hasSupportedSuffix, List.any_eq_true, List.mem_tails,
    beq_iff_eq, List.isSuffixOf_iff_suffix]
  constructor
  · rintro ⟨t, ht, e, he, rfl⟩
    simp only [supportedTypes, List.mem_cons, List.mem_singleton, List.not_mem_nil,
      or_false] at he
    rcases he with rfl | rfl | rfl | rfl | rfl
    · exact ⟨".jpg", by simp [supportedSuffixes], ht⟩
    · exact ⟨".jpeg", by simp [supportedSuffixes], ht⟩
    · exact ⟨".dng", by simp [supportedSuffixes], ht⟩
    · exact ⟨".mpg", by simp [supportedSuffixes], ht⟩
    · exact ⟨".mp4", by simp [supportedSuffixes], ht⟩
  · rintro ⟨s, hs, hsuf⟩
    simp only [supportedSuffixes, List.mem_cons, List.mem_singleton, List.not_mem_nil,
      or_false] at hs
    rcases hs with rfl | rfl | rfl | rfl | rfl
    · exact ⟨_, hsuf, "jpg", by simp [supportedTypes], rfl⟩
    · exact ⟨_, hsuf, "jpeg", by simp [supportedTypes], rfl⟩
    · exact ⟨_, hsuf, "dng", by simp [supportedTypes], rfl⟩
    · exact ⟨_, hsuf, "mpg", by simp [supportedTypes], rfl⟩
    · exact ⟨_, hsuf, "mp4", by simp [supportedTypes], rfl⟩

theorem orderedInsert_perm (less : α → α → Bool) (x : α) (l : List α) :
    (orderedInsert less x l).Perm (x :: l) := by
  induction l with
  | nil => simp [orderedInsert]
  | cons y ys ih =>
    simp only [orderedInsert]
    split
    · exact (List.Perm.cons y ih).trans (List.Perm.swap x y ys)
    · exact List.Perm.refl _

theorem sortSlice_perm (less : α → α → Bool) (l : List α) : (sortSlice less l).Perm l := by
  induction l with
  | nil => simp [sortSlice]
  | cons x xs ih =>
    simp only [sortSlice]
    exact (orderedInsert_perm less x _).trans (List.Perm.cons x ih)

theorem orderedInsert_sorted (x : FileInfo) (l : List FileInfo)
    (hl : l.Pairwise (fun a b => len a.Name ≤ len b.Name)) :
    (orderedInsert lessByNameLen x l).Pairwise (fun a b => len a.Name ≤ len b.Name) := by
  induction l with
  | nil => simp [orderedInsert]
  | cons y ys ih =>
    rw [List.pairwise_cons] at hl
    simp only [orderedInsert]
    split
    · rename_i hlt
      simp only [lessByNameLen, decide_eq_true_eq] at hlt
      rw [List.pairwise_cons]
      refine ⟨?_, ih hl.2⟩
      intro z hz
      rcases List.mem_cons.mp ((orderedInsert_perm lessByNameLen x ys).mem_iff.mp hz) with
        rfl | hzy
      · exact Nat.le_of_lt hlt
      · exact hl.1 z hzy
    · rename_i hlt
      simp only [lessByNameLen, decide_eq_true_eq, Nat.not_lt] at hlt
      rw [List.pairwise_cons]
      refine ⟨?_, List.pairwise_cons.mpr hl⟩
      intro z hz
      rcases List.mem_cons.mp hz with rfl | hz
      · exact hlt
      · exact Nat.le_trans hlt (hl.1 z hz)

theorem sortSlice_sorted (l : List FileInfo) :
    (sortSlice lessByNameLen l).Pairwise (fun a b => len a.Name ≤ len b.Name) := by
  induction l with
  | nil => simp [sortSlice]
  | cons x xs ih => exact orderedInsert_sorted x _ ih

theorem scanLoop_ok (entries : List DirEntry) :
    ∀ (g g1 : Globals) (acc m : List FileInfo), scanLoop entries g acc = (g1, some m) →
      m = acc ++ (keptEntries entries).filterMap DirEntry.Info
      ∧ ((keptEntries entries).filterMap DirEntry.Info).map FileInfo.Name
          = (keptEntries entries).map DirEntry.Name
      ∧ g1.skippedDirectoryCounter
          = g.skippedDirectoryCounter + entries.countP (fun e => e.IsDir)
      ∧ g1.skippedExtensionFilesCounter
          = g.skippedExtensionFilesCounter
            + entries.countP (fun e => !e.IsDir && !hasSupportedSuffix e.Name) := by
  induction entries with
  | nil =>
    intro g g1 acc m h
    simp only [scanLoop, Prod.mk.injEq, Option.some.injEq] at h
    obtain ⟨rfl, rfl⟩ := h
    simp [keptEntries]
  | cons f rest ih =>
    intro g g1 acc m h
    rw [scanLoop] at h
    by_cases hd : f.IsDir = true
    · rw [if_pos hd] at h
      obtain ⟨h1, h2, h3, h4⟩ := ih _ _ _ _ h
      refine ⟨?_, ?_, ?_, ?_⟩
      · simpa [keptEntries, hd] using h1
      · simpa [keptEntries, hd] using h2
      · rw [h3, List.countP_cons]; simp [hd]; omega
      · rw [h4, List.countP_cons]; simp [hd]
    · rw [if_neg hd] at h
      simp only [Bool.not_eq_true] at hd
      cases hinfo : f.InfoSize with
      | none => simp [DirEntry.Info, hinfo] at h
      | some s =>
        simp only [DirEntry.Info, hinfo, Option.map_some'] at h
        by_cases hm : hasSupportedSuffix f.Name = true
        · simp only [regexSupportedTypeMatch_eq, hm, Bool.not_true, Bool.false_eq_true,
            if_false] at h
          obtain ⟨h1, h2, h3, h4⟩ := ih _ _ _ _ h
          refine ⟨?_, ?_, ?_, ?_⟩
          · simpa [keptEntries, hd, hm, DirEntry.Info, hinfo] using h1
          · simpa [keptEntries, hd, hm, DirEntry.Info, hinfo] using h2
          · rw [h3, List.countP_cons]; simp [hd]
          · rw [h4, List.countP_cons]; simp [hd, hm]
        · simp only [Bool.not_eq_true] at hm
          simp only [regexSupportedTypeMatch_eq, hm, Bool.not_false, if_true] at h
          obtain ⟨h1, h2, h3, h4⟩ := ih _ _ _ _ h
          refine ⟨?_, ?_, ?_, ?_⟩
          · simpa [keptEntries, hd, hm] using h1
          · simpa [keptEntries, hd, hm] using h2
          · rw [h3, List.countP_cons]; simp [hd]
          · rw [h4, List.countP_cons]; simp [hd, hm]; omega

/-! ## Scanner: the scan result -/

/-- C7: when `scanFiles` succeeds on a directory listing, the returned list
is a permutation of the descriptors of exactly the entries that are not
directories and whose name ends in `.jpg`, `.jpeg`, `.dng`, `.mpg` or `.mp4`
(so the names agree up to order and every returned file comes from such an
entry, never from a directory), the byte lengths of the names are
non-decreasing along the list, and the directory-skip and extension-skip
counters grow by the number of directories and of non-matching files. -/
theorem scanFiles_result (entries : List DirEntry) (g g1 : Globals) (files : List FileInfo)
    (h : scanFiles (Except.ok entries) g = (g1, Except.ok files)) :
    files.Perm ((keptEntries entries).filterMap DirEntry.Info)
    ∧ (files.map FileInfo.Name).Perm ((keptEntries entries).map DirEntry.Name)
    ∧ (∀ f ∈ files, ∃ e ∈ entries,
        e.IsDir = false ∧ hasSupportedSuffix e.Name = true ∧ e.Info = some f)
    ∧ files.Pairwise (fun a b => len a.Name ≤ len b.Name)
    ∧ g1.skippedDirectoryCounter
        = g.skippedDirectoryCounter + entries.countP (fun e => e.IsDir)
    ∧ g1.skippedExtensionFilesCounter
        = g.skippedExtensionFilesCounter
          + entries.countP (fun e => !e.IsDir && !hasSupportedSuffix e.Name) := by
  simp only [scanFiles] at h
  generalize hloop : scanLoop entries g [] = r at h
  obtain ⟨g2, om⟩ := r
  cases om with
  | none => simp at h
  | some m =>
    simp only [Prod.mk.injEq, Except.ok.injEq] at h
    obtain ⟨rfl, rfl⟩ := h
    obtain ⟨h1, h2, h3, h4⟩ := scanLoop_ok entries g g2 [] m hloop
    simp only [List.nil_append] at h1
    have hperm : (sortSlice lessByNameLen m).Perm ((keptEntries entries).filterMap DirEntry.Info) :=
      h1 ▸ sortSlice_perm lessByNameLen m
    refine ⟨hperm, ?_, ?_, sortSlice_sorted m, h3, h4⟩
    · rw [← h2]
      exact hperm.map _
    · intro f hf
      have hf1 := hperm.mem_iff.mp hf
      rw [List.mem_filterMap] at hf1
      obtain ⟨e, he, hinfo⟩ := hf1
      simp only [keptEntries, List.mem_filter, Bool.and_eq_true, Bool.not_eq_true'] at he
      exact ⟨e, he.1, he.2.1, he.2.2, hinfo⟩

/-- C7 at a concrete listing with a sub-directory `moved` and a file
`notes.txt`: three files are returned, shortest names first. -/
theorem scanFiles_result_witness :
    (scanFiles (Except.ok listingMixed) (globalsAt false Action.DeleteAction)).2
        = Except.ok [⟨"a.jpg", 100⟩, ⟨"c.jpg", 0⟩, ⟨"bb.jpg", 100⟩]
    ∧ (∀ f ∈ [(⟨"a.jpg", 100⟩ : FileInfo), ⟨"c.jpg", 0⟩, ⟨"bb.jpg", 100⟩], ∃ e ∈ listingMixed,
        e.IsDir = false ∧ hasSupportedSuffix e.Name = true ∧ e.Info = some f)
    ∧ (scanFiles (Except.ok listingMixed)
        (globalsAt false Action.DeleteAction)).1.skippedDirectoryCounter
        = 0 + listingMixed.countP (fun e => e.IsDir) :=
  have h := scanFiles_result listingMixed (globalsAt false Action.DeleteAction)
      (scanFiles (Except.ok listingMixed) (globalsAt false Action.DeleteAction)).1
      [⟨"a.jpg", 100⟩, ⟨"c.jpg", 0⟩, ⟨"bb.jpg", 100⟩] rfl
  ⟨rfl, h.2.2.1, h.2.2.2.2.1⟩

/-! ## Classifier: one file -/

theorem evaluateFile_baseDir (mode : Action) (g : Globals) (file : FileInfo) (md5 : String) :
    (evaluateFile mode g file md5).1.baseDir = g.baseDir := by
  simp only [evaluateFile]
  split <;> split <;> (try split) <;> rfl

theorem evaluateFile_record (mode : Action) (g : Globals) (file : FileInfo) (md5 : String) :
    (evaluateFile mode g file md5).2.FileInfo = file
    ∧ (evaluateFile mode g file md5).2.MD5Sum = md5
    ∧ (evaluateFile mode g file md5).2.FileName = file.Name
    ∧ (evaluateFile mode g file md5).2.FilePath = filepathJoin g.baseDir file.Name := by
  simp only [evaluateFile]
  split <;> split <;> (try split) <;> exact ⟨rfl, rfl, rfl, rfl⟩

theorem evaluateFile_zero (mode : Action) (g : Globals) (file : FileInfo) (md5 : String)
    (hz : file.Size = 0) :
    (evaluateFile mode g file md5).2.Action = mode
    ∧ (evaluateFile mode g file md5).2.Reason = Reason.ZeroByteReason := by
  simp only [evaluateFile, hz, if_true]
  split <;> simp

theorem evaluateFile_dup (mode : Action) (g : Globals) (file : FileInfo) (md5 : String)
    (orig : File) (hz : file.Size ≠ 0) (ho : g.allMD5 md5 = some orig) :
    (evaluateFile mode g file md5).2.Action = mode
    ∧ (evaluateFile mode g file md5).2.Reason = Reason.DuplicateReason
    ∧ (evaluateFile mode g file md5).2.OriginalFileName = orig.FileName
    ∧ (evaluateFile mode g file md5).2.OriginalFilePath = orig.FilePath
    ∧ (evaluateFile mode g file md5).1.allMD5 = g.allMD5 := by
  simp [evaluateFile, hz, ho]

theorem evaluateFile_fresh (mode : Action) (g : Globals) (file : FileInfo) (md5 : String)
    (hz : file.Size ≠ 0) (ho : g.allMD5 md5 = none) :
    (evaluateFile mode g file md5).2.Action = Action.NoAction
    ∧ (evaluateFile mode g file md5).2.Reason = Reason.NoReason
    ∧ (evaluateFile mode g file md5).1.allMD5 md5 = some (evaluateFile mode g file md5).2 := by
  simp [evaluateFile, hz, ho]

theorem evaluateFile_table_other (mode : Action) (g : Globals) (file : FileInfo)
    (md5 k : String) (hk : k ≠ md5) :
    (evaluateFile mode g file md5).1.allMD5 k = g.allMD5 k := by
  simp only [evaluateFile]
  split <;> split <;> (try split) <;> simp [hk]

/-! ## Classifier: the loop -/

theorem evaluateFiles_step (fs : FS) (ctx : Nat → Bool) (room : Option Nat) (mode : Action)
    (file : FileInfo) (rest : List FileInfo) (g : Globals) (md5 : String) (h0 : ctx 0 = false)
    (hm : hashOf fs g.baseDir file = some md5) (hroom : room ≠ some 0) :
    evaluateFiles fs ctx room mode (file :: rest) g =
      { evaluateFiles fs (fun n => ctx (n + 1)) (roomAfterSend room) mode rest
          (evaluateFile mode g file md5).1 with
        out := (evaluateFile mode g file md5).2 ::
          (evaluateFiles fs (fun n => ctx (n + 1)) (roomAfterSend room) mode rest
            (evaluateFile mode g file md5).1).out } := by
  simp only [hashOf] at hm
  simp [evaluateFiles, h0, hm, hroom]

theorem evaluateFiles_full (fs : FS) (ctx : Nat → Bool) (mode : Action)
    (file : FileInfo) (rest : List FileInfo) (g : Globals) (md5 : String) (h0 : ctx 0 = false)
    (hm : hashOf fs g.baseDir file = some md5) :
    evaluateFiles fs ctx (some 0) mode (file :: rest) g =
      { g := (evaluateFile mode g file md5).1, out := [], closed := false,
        ending := Ending.blocked } := by
  simp only [hashOf] at hm
  simp [evaluateFiles, h0, hm]

theorem roomAfterSend_enough (room : Option Nat) (k : Nat)
    (h : ∀ n, room = some n → k + 1 ≤ n) : ∀ n, roomAfterSend room = some n → k ≤ n := by
  intro n hn
  cases room with
  | none => simp [roomAfterSend] at hn
  | some m =>
    simp only [roomAfterSend, Option.map_some', Option.some.injEq] at hn
    have := h m rfl
    omega

theorem room_ne_zero (room : Option Nat) (k : Nat) (h : ∀ n, room = some n → k + 1 ≤ n) :
    room ≠ some 0 := by
  intro h0
  have := h 0 h0
  omega

theorem evaluateFiles_out_source (fs : FS) (mode : Action) (files : List FileInfo) :
    ∀ (ctx : Nat → Bool) (room : Option Nat) (g : Globals) (i : Nat) (r : File),
      (evaluateFiles fs ctx room mode files g).out[i]? = some r →
      ∃ file md5 g1, files[i]? = some file ∧ hashOf fs g.baseDir file = some md5
        ∧ g1.baseDir = g.baseDir ∧ r = (evaluateFile mode g1 file md5).2 := by
  induction files with
  | nil => intro ctx room g i r h; simp [evaluateFiles] at h
  | cons file rest ih =>
    intro ctx room g i r h
    by_cases h0 : ctx 0 = true
    · simp [evaluateFiles, h0] at h
    · simp only [Bool.not_eq_true] at h0
      cases hm : hashOf fs g.baseDir file with
      | none =>
        simp only [hashOf] at hm
        simp [evaluateFiles, h0, hm] at h
      | some md5 =>
        by_cases hroom : room = some 0
        · subst hroom
          rw [evaluateFiles_full fs ctx mode file rest g md5 h0 hm] at h
          simp at h
        · rw [evaluateFiles_step fs ctx room mode file rest g md5 h0 hm hroom] at h
          cases i with
          | zero =>
            simp only [List.getElem?_cons_zero, Option.some.injEq] at h
            exact ⟨file, md5, g, by simp, hm, rfl, h.symm⟩
          | succ i =>
            simp only [List.getElem?_cons_succ] at h
            obtain ⟨f1, m1, g1, hf, hh, hb, hr⟩ := ih _ _ _ i r h
            rw [evaluateFile_baseDir] at hh hb
            exact ⟨f1, m1, g1, by simpa using hf, hh, hb, hr⟩

theorem evaluateFiles_complete (fs : FS) (mode : Action) (files : List FileInfo) :
    ∀ (ctx : Nat → Bool) (room : Option Nat) (g : Globals),
      (∀ n, n < files.length → ctx n = false) →
      (∀ f ∈ files, hashOf fs g.baseDir f ≠ none) →
      (∀ n, room = some n → files.length ≤ n) →
      (evaluateFiles fs ctx room mode files g).ending = Ending.returned
      ∧ (evaluateFiles fs ctx room mode files g).closed = true
      ∧ (evaluateFiles fs ctx room mode files g).out.length = files.length := by
  induction files with
  | nil => intro ctx room g _ _ _; simp [evaluateFiles]
  | cons file rest ih =>
    intro ctx room g hctx hhash hroom
    have h0 : ctx 0 = false := hctx 0 (by simp)
    cases hm : hashOf fs g.baseDir file with
    | none => exact absurd hm (hhash file (by simp))
    | some md5 =>
      rw [evaluateFiles_step fs ctx room mode file rest g md5 h0 hm
        (room_ne_zero room rest.length (by simpa using hroom))]
      have := ih (fun n => ctx (n + 1)) (roomAfterSend room) (evaluateFile mode g file md5).1
        (fun n hn => hctx (n + 1) (by simp; omega))
        (fun f hf => by rw [evaluateFile_baseDir]; exact hhash f (by simp [hf]))
        (roomAfterSend_enough room rest.length (by simpa using hroom))
      simpa using this

theorem evaluateFiles_closed_length (fs : FS) (mode : Action) (files : List FileInfo) :
    ∀ (ctx : Nat → Bool) (room : Option Nat) (g : Globals),
      (evaluateFiles fs ctx room mode files g).closed = true →
      (evaluateFiles fs ctx room mode files g).out.length = files.length
      ∧ (evaluateFiles fs ctx room mode files g).ending = Ending.returned
      ∧ (∀ n, n < files.length → ctx n = false) := by
  induction files with
  | nil => intro ctx room g _; simp [evaluateFiles]
  | cons file rest ih =>
    intro ctx room g h
    by_cases h0 : ctx 0 = true
    · simp [evaluateFiles, h0] at h
    · simp only [Bool.not_eq_true] at h0
      cases hm : hashOf fs g.baseDir file with
      | none =>
        simp only [hashOf] at hm
        simp [evaluateFiles, h0, hm] at h
      | some md5 =>
        by_cases hroom : room = some 0
        · subst hroom
          rw [evaluateFiles_full fs ctx mode file rest g md5 h0 hm] at h
          simp at h
        · rw [evaluateFiles_step fs ctx room mode file rest g md5 h0 hm hroom] at h ⊢
          obtain ⟨h1, h2, h3⟩ := ih _ _ _ h
          refine ⟨by simpa using h1, h2, ?_⟩
          intro n hn
          cases n with
          | zero => exact h0
          | succ n => exact h3 n (by simpa using hn)

/-! ## Classifier: zero-byte files -/

/-- C3: a file of size 0 that `evaluateFiles` classifies gets `Action` equal to
the run mode and `Reason` equal to `ZeroByteReason` (hence not
`DuplicateReason`), whatever its hash and whatever the package-level state,
the duplicate table included, held when `evaluateFiles` started. -/
theorem evaluateFiles_zero_byte (fs : FS) (ctx : Nat → Bool) (room : Option Nat) (mode : Action)
    (files : List FileInfo) (g : Globals) (i : Nat) (file : FileInfo) (r : File)
    (hfile : files[i]? = some file) (hz : file.Size = 0)
    (hr : (evaluateFiles fs ctx room mode files g).out[i]? = some r) :
    r.FileName = file.Name ∧ r.Action = mode ∧ r.Reason = Reason.ZeroByteReason
      ∧ r.Reason ≠ Reason.DuplicateReason := by
  obtain ⟨f1, m1, g1, hf, _, _, rfl⟩ := evaluateFiles_out_source fs mode files ctx room g i r hr
  rw [hfile] at hf
  cases hf
  have h := evaluateFile_zero mode g1 file m1 hz
  refine ⟨(evaluateFile_record mode g1 file m1).2.2.1, h.1, h.2, ?_⟩
  rw [h.2]
  decide

/-! ## Classifier: first seen wins -/

theorem evaluateFiles_after_first (fs : FS) (mode : Action) (h : String) (orig : File)
    (files : List FileInfo) :
    ∀ (ctx : Nat → Bool) (room : Option Nat) (g : Globals), g.allMD5 h = some orig →
      (∀ c ∈ files, hashOf fs g.baseDir c = some h → c.Size ≠ 0) →
      ∀ (j : Nat) (b : FileInfo) (rb : File), files[j]? = some b →
        hashOf fs g.baseDir b = some h →
        (evaluateFiles fs ctx room mode files g).out[j]? = some rb →
        rb.FileName = b.Name ∧ rb.Action = mode ∧ rb.Reason = Reason.DuplicateReason
          ∧ rb.OriginalFileName = orig.FileName ∧ rb.OriginalFilePath = orig.FilePath := by
  induction files with
  | nil => intro ctx room g _ _ j b rb hb; simp at hb
  | cons file rest ih =>
    intro ctx room g ho hnz j b rb hb hhb hrb
    by_cases h0 : ctx 0 = true
    · simp [evaluateFiles, h0] at hrb
    · simp only [Bool.not_eq_true] at h0
      cases hm : hashOf fs g.baseDir file with
      | none =>
        simp only [hashOf] at hm
        simp [evaluateFiles, h0, hm] at hrb
      | some md5 =>
        by_cases hroom : room = some 0
        · subst hroom
          rw [evaluateFiles_full fs ctx mode file rest g md5 h0 hm] at hrb
          simp at hrb
        · rw [evaluateFiles_step fs ctx room mode file rest g md5 h0 hm hroom] at hrb
          cases j with
          | zero =>
            simp only [List.getElem?_cons_zero, Option.some.injEq] at hb hrb
            subst hb
            have hmd : md5 = h := by rw [hm] at hhb; exact Option.some.inj hhb
            subst hrb
            have hsz := hnz file (by simp) (hmd ▸ hm)
            have hd := evaluateFile_dup mode g file md5 orig hsz (hmd ▸ ho)
            exact ⟨(evaluateFile_record mode g file md5).2.2.1, hd.1, hd.2.1, hd.2.2.1,
              hd.2.2.2.1⟩
          | succ j =>
            simp only [List.getElem?_cons_succ] at hb hrb
            have ho1 : (evaluateFile mode g file md5).1.allMD5 h = some orig := by
              by_cases hk : h = md5
              · subst hk
                have hsz := hnz file (by simp) hm
                rw [(evaluateFile_dup mode g file h orig hsz ho).2.2.2.2]
                exact ho
              · rw [evaluateFile_table_other mode g file md5 h hk]
                exact ho
            refine ih (fun n => ctx (n + 1)) (roomAfterSend room) (evaluateFile mode g file md5).1
              ho1 ?_ j b rb hb ?_ hrb
            · intro c hc
              rw [evaluateFile_baseDir]
              exact hnz c (by simp [hc])
            · rw [evaluateFile_baseDir]
              exact hhb

theorem evaluateFiles_first_then_later (fs : FS) (mode : Action) (h : String)
    (files : List FileInfo) :
    ∀ (ctx : Nat → Bool) (room : Option Nat) (g : Globals) (i : Nat) (a : FileInfo) (ra : File),
      g.allMD5 h = none →
      (∀ c ∈ files, hashOf fs g.baseDir c = some h → c.Size ≠ 0) →
      files[i]? = some a → hashOf fs g.baseDir a = some h →
      (∀ k c, k < i → files[k]? = some c → hashOf fs g.baseDir c ≠ some h) →
      (evaluateFiles fs ctx room mode files g).out[i]? = some ra →
      (ra.FileName = a.Name ∧ ra.FilePath = filepathJoin g.baseDir a.Name
        ∧ ra.Action = Action.NoAction ∧ ra.Reason = Reason.NoReason)
      ∧ (∀ (j : Nat) (b : FileInfo) (rb : File), i < j → files[j]? = some b →
          hashOf fs g.baseDir b = some h →
          (evaluateFiles fs ctx room mode files g).out[j]? = some rb →
          rb.FileName = b.Name ∧ rb.Action = mode ∧ rb.Reason = Reason.DuplicateReason
            ∧ rb.OriginalFileName = ra.FileName ∧ rb.OriginalFilePath = ra.FilePath) := by
  induction files with
  | nil => intro ctx room g i a ra _ _ ha; simp at ha
  | cons file rest ih =>
    intro ctx room g i a ra hnone hnz ha hha hfirst hra
    by_cases h0 : ctx 0 = true
    · simp [evaluateFiles, h0] at hra
    · simp only [Bool.not_eq_true] at h0
      cases hm : hashOf fs g.baseDir file with
      | none =>
        simp only [hashOf] at hm
        simp [evaluateFiles, h0, hm] at hra
      | some md5 =>
        by_cases hroom : room = some 0
        · subst hroom
          rw [evaluateFiles_full fs ctx mode file rest g md5 h0 hm] at hra
          simp at hra
        · rw [evaluateFiles_step fs ctx room mode file rest g md5 h0 hm hroom] at hra ⊢
          cases i with
          | zero =>
            simp only [List.getElem?_cons_zero, Option.some.injEq] at ha hra
            subst ha
            have hmd : md5 = h := by rw [hm] at hha; exact Option.some.inj hha
            subst hra
            have hsz := hnz file (by simp) (hmd ▸ hm)
            have hf := evaluateFile_fresh mode g file md5 hsz (hmd ▸ hnone)
            have hrec := evaluateFile_record mode g file md5
            refine ⟨⟨hrec.2.2.1, hrec.2.2.2, hf.1, hf.2.1⟩, ?_⟩
            intro j b rb hij hb hhb hrb
            obtain ⟨j, rfl⟩ : ∃ j1, j = j1 + 1 := ⟨j - 1, by omega⟩
            simp only [List.getElem?_cons_succ] at hb hrb
            refine evaluateFiles_after_first fs mode h _ rest (fun n => ctx (n + 1))
              (roomAfterSend room) (evaluateFile mode g file md5).1 (hmd ▸ hf.2.2) ?_ j b rb hb
              ?_ hrb
            · intro c hc
              rw [evaluateFile_baseDir]
              exact hnz c (by simp [hc])
            · rw [evaluateFile_baseDir]
              exact hhb
          | succ i =>
            simp only [List.getElem?_cons_succ] at ha hra
            have hne : md5 ≠ h := by
              intro heq
              exact hfirst 0 file (by omega) (by simp) (by rw [hm, heq])
            have hnone1 : (evaluateFile mode g file md5).1.allMD5 h = none := by
              rw [evaluateFile_table_other mode g file md5 h (fun e => hne e.symm)]
              exact hnone
            have hbd := evaluateFile_baseDir mode g file md5
            have := ih (fun n => ctx (n + 1)) (roomAfterSend room)
              (evaluateFile mode g file md5).1 i a ra hnone1
              (by intro c hc; rw [hbd]; exact hnz c (by simp [hc]))
              ha (by rw [hbd]; exact hha)
              (by
                intro k c hk hc
                rw [hbd]
                exact hfirst (k + 1) c (by omega) (by simpa using hc))
              hra
            rw [hbd] at this
            refine ⟨this.1, ?_⟩
            intro j b rb hij hb hhb hrb
            obtain ⟨j, rfl⟩ : ∃ j1, j = j1 + 1 := ⟨j - 1, by omega⟩
            simp only [List.getElem?_cons_succ] at hb hrb
            exact this.2 j b rb (by omega) hb hhb hrb

/-- C1: first seen wins. `evaluateFiles` starts from an empty duplicate table
and classifies every file of the list (`closed = true`). Let `h` be a hash
that no zero-byte file of the list carries, and let the file at index `i` be
the first one with hash `h`. Then the record of that file has
`Action = NoAction` and `Reason = NoReason`, also when no other file has hash
`h`, and every file at a later index `j` with hash `h` has a record with
`Action = mode`, `Reason = DuplicateReason` and `OriginalFilePath`,
`OriginalFileName` equal to the path and the name of that first file. -/
theorem evaluateFiles_first_seen_wins (fs : FS) (ctx : Nat → Bool) (room : Option Nat)
    (mode : Action) (files : List FileInfo) (g : Globals) (h : String) (i : Nat) (a : FileInfo)
    (hempty : ∀ k, g.allMD5 k = none)
    (hall : (evaluateFiles fs ctx room mode files g).closed = true)
    (hnz : ∀ c ∈ files, hashOf fs g.baseDir c = some h → c.Size ≠ 0)
    (ha : files[i]? = some a) (hha : hashOf fs g.baseDir a = some h)
    (hfirst : ∀ k c, k < i → files[k]? = some c → hashOf fs g.baseDir c ≠ some h) :
    ∃ ra, (evaluateFiles fs ctx room mode files g).out[i]? = some ra
      ∧ ra.FileName = a.Name ∧ ra.FilePath = filepathJoin g.baseDir a.Name
      ∧ ra.Action = Action.NoAction ∧ ra.Reason = Reason.NoReason
      ∧ ∀ (j : Nat) (b : FileInfo), i < j → files[j]? = some b →
          hashOf fs g.baseDir b = some h →
          ∃ rb, (evaluateFiles fs ctx room mode files g).out[j]? = some rb
            ∧ rb.FileName = b.Name ∧ rb.Action = mode ∧ rb.Reason = Reason.DuplicateReason
            ∧ rb.OriginalFilePath = ra.FilePath ∧ rb.OriginalFileName = ra.FileName := by
  have hlen := (evaluateFiles_closed_length fs mode files ctx room g hall).1
  have hi : i < files.length := by
    rcases Nat.lt_or_ge i files.length with hlt | hge
    · exact hlt
    · rw [List.getElem?_eq_none hge] at ha
      cases ha
  have hio : i < (evaluateFiles fs ctx room mode files g).out.length := by omega
  have hmain := evaluateFiles_first_then_later fs mode h files ctx room g i a _ (hempty h) hnz ha
    hha hfirst (List.getElem?_eq_getElem hio)
  obtain ⟨⟨h1, h2, h3, h4⟩, hlater⟩ := hmain
  refine ⟨(evaluateFiles fs ctx room mode files g).out[i], List.getElem?_eq_getElem hio,
    h1, h2, h3, h4, ?_⟩
  intro j b hij hb hhb
  have hj : j < files.length := by
    rcases Nat.lt_or_ge j files.length with hlt | hge
    · exact hlt
    · rw [List.getElem?_eq_none hge] at hb
      cases hb
  have hjo : j < (evaluateFiles fs ctx room mode files g).out.length := by omega
  obtain ⟨k1, k2, k3, k4, k5⟩ := hlater j b _ hij hb hhb (List.getElem?_eq_getElem hjo)
  exact ⟨(evaluateFiles fs ctx room mode files g).out[j], List.getElem?_eq_getElem hjo,
    k1, k2, k3, k5, k4⟩

/-! ## Executor -/

theorem processFile_counters (w : World) (f : File) :
    (f.Action ≠ Action.NoAction →
      (processFile w f).1.g.processedFileCounter = w.g.processedFileCounter + 1
      ∧ (processFile w f).1.g.processedFileSizeCounter
          = w.g.processedFileSizeCounter + f.FileInfo.Size)
    ∧ (f.Action = Action.NoAction → (processFile w f).1.g.processedFileCounter
          = w.g.processedFileCounter
        ∧ (processFile w f).1.g.processedFileSizeCounter = w.g.processedFileSizeCounter) := by
  cases hA : f.Action
  · simp [processFile, hA]
  · simp only [processFile, hA]
    cases w.g.dryRun <;> simp
  · simp only [processFile, hA]
    split
    · simp
    · cases w.g.dryRun <;> simp

theorem processFile_dryRun_flag (w : World) (f : File) :
    (processFile w f).1.g.dryRun = w.g.dryRun := by
  cases hA : f.Action
  · simp [processFile, hA]
  · simp only [processFile, hA]
    cases w.g.dryRun <;> simp
  · simp only [processFile, hA]
    split
    · simp
    · cases w.g.dryRun <;> simp

theorem createMoveFolder_keeps_files (fs : FS) (dir p : String) (size : Nat) (md5 : String) :
    (createMoveFolder fs dir).2.1 p = some (Node.file size md5)
      ↔ fs p = some (Node.file size md5) := by
  simp only [createMoveFolder, osMkdirAll]
  cases h : fs (filepathJoin dir "moved") with
  | none =>
    by_cases hp : p = filepathJoin dir "moved"
    · simp [FS.set, hp, h]
    · simp [FS.set, hp]
  | some n => cases n <;> simp

theorem processFile_dryRun_keeps_files (w : World) (f : File) (hdry : w.g.dryRun = true)
    (p : String) (size : Nat) (md5 : String) :
    (processFile w f).1.fs p = some (Node.file size md5) ↔ w.fs p = some (Node.file size md5) := by
  cases hA : f.Action
  · simp [processFile, hA]
  · simp [processFile, hA, hdry]
  · have hc := createMoveFolder_keeps_files w.fs (filepathDir f.FilePath) p size md5
    simp only [processFile, hA]
    generalize createMoveFolder w.fs (filepathDir f.FilePath) = r at hc
    obtain ⟨dest, fs1, e⟩ := r
    cases e <;> simpa [hdry] using hc

theorem processFile_dryRun_noMove_unchanged (w : World) (f : File) (hdry : w.g.dryRun = true)
    (hA : f.Action ≠ Action.MoveAction) : (processFile w f).1.fs = w.fs := by
  cases hB : f.Action
  · simp [processFile, hB]
  · simp [processFile, hB, hdry]
  · exact absurd hB hA

theorem processFiles_step (ctx : Nat → Bool) (inClosed : Bool) (room : Option Nat) (f : File)
    (rest : List File) (w : World) (h0 : ctx 0 = false) (hok : (processFile w f).2 = none)
    (hroom : room ≠ some 0) :
    processFiles ctx inClosed room (f :: rest) w =
      { processFiles (fun n => ctx (n + 1)) inClosed (roomAfterSend room) rest
          (processFile w f).1 with
        applied := f :: (processFiles (fun n => ctx (n + 1)) inClosed (roomAfterSend room) rest
          (processFile w f).1).applied
        out := f :: (processFiles (fun n => ctx (n + 1)) inClosed (roomAfterSend room) rest
          (processFile w f).1).out } := by
  rw [processFiles]
  simp only [h0, Bool.false_eq_true, if_false]
  generalize processFile w f = r at hok
  obtain ⟨w1, e⟩ := r
  simp only at hok
  subst hok
  simp [hroom]

theorem processFiles_failed (ctx : Nat → Bool) (inClosed : Bool) (room : Option Nat) (f : File)
    (rest : List File) (w : World) (h0 : ctx 0 = false) (e : OsError)
    (hp : (processFile w f).2 = some e) :
    processFiles ctx inClosed room (f :: rest) w =
      { w := (processFile w f).1, applied := [f], out := [], closed := false,
        ending := Ending.returned, err := some e } := by
  rw [processFiles]
  simp only [h0, Bool.false_eq_true, if_false]
  generalize processFile w f = r at hp
  obtain ⟨w1, e1⟩ := r
  simp only at hp
  subst hp
  rfl

theorem processFiles_full (ctx : Nat → Bool) (inClosed : Bool) (f : File)
    (rest : List File) (w : World) (h0 : ctx 0 = false) (hok : (processFile w f).2 = none) :
    processFiles ctx inClosed (some 0) (f :: rest) w =
      { w := (processFile w f).1, applied := [f], out := [], closed := false,
        ending := Ending.blocked, err := none } := by
  rw [processFiles]
  simp only [h0, Bool.false_eq_true, if_false]
  generalize processFile w f = r at hok
  obtain ⟨w1, e⟩ := r
  simp only at hok
  subst hok
  simp

theorem processFiles_run (records : List File) :
    ∀ (ctx : Nat → Bool) (inClosed : Bool) (room : Option Nat) (w : World),
      (∀ n, n ≤ records.length → ctx n = false) →
      (∀ n, room = some n → records.length ≤ n) →
      (processFiles ctx inClosed room records w).err = none →
      (processFiles ctx inClosed room records w).out = records
      ∧ (processFiles ctx inClosed room records w).applied = records
      ∧ (processFiles ctx inClosed room records w).w
          = records.foldl (fun w1 f => (processFile w1 f).1) w
      ∧ (processFiles ctx inClosed room records w).closed = inClosed
      ∧ (processFiles ctx inClosed room records w).ending
          = (if inClosed then Ending.returned else Ending.blocked) := by
  induction records with
  | nil =>
    intro ctx inClosed room w hctx _ _
    cases inClosed <;> simp [processFiles, hctx 0 (by simp)]
  | cons f rest ih =>
    intro ctx inClosed room w hctx hroom herr
    have h0 : ctx 0 = false := hctx 0 (by simp)
    cases hp : (processFile w f).2 with
    | some e =>
      rw [processFiles_failed ctx inClosed room f rest w h0 e hp] at herr
      simp at herr
    | none =>
      have hr0 := room_ne_zero room rest.length (by simpa using hroom)
      rw [processFiles_step ctx inClosed room f rest w h0 hp hr0] at herr ⊢
      have := ih (fun n => ctx (n + 1)) inClosed (roomAfterSend room) (processFile w f).1
        (fun n hn => hctx (n + 1) (by simp; omega))
        (roomAfterSend_enough room rest.length (by simpa using hroom)) herr
      simpa using this

theorem processFiles_complete (records : List File) (ctx : Nat → Bool) (room : Option Nat)
    (w : World) (hctx : ∀ n, n ≤ records.length → ctx n = false)
    (hroom : ∀ n, room = some n → records.length ≤ n)
    (herr : (processFiles ctx true room records w).err = none) :
    (processFiles ctx true room records w).ending = Ending.returned
    ∧ (processFiles ctx true room records w).closed = true
    ∧ (processFiles ctx true room records w).out = records
    ∧ (processFiles ctx true room records w).applied = records
    ∧ (processFiles ctx true room records w).w
        = records.foldl (fun w1 f => (processFile w1 f).1) w := by
  have h := processFiles_run records ctx true room w hctx hroom herr
  exact ⟨by simpa using h.2.2.2.2, h.2.2.2.1, h.1, h.2.1, h.2.2.1⟩

theorem processFiles_cancelled (records : List File) :
    ∀ (ctx : Nat → Bool) (inClosed : Bool) (room : Option Nat) (w : World) (k : Nat),
      k ≤ records.length →
      ctx k = true → (∀ n, n < k → ctx n = false) →
      (∀ n, room = some n → k ≤ n) →
      (processFiles ctx inClosed room records w).err = none →
      (processFiles ctx inClosed room records w).ending = Ending.returned
      ∧ (processFiles ctx inClosed room records w).closed = false
      ∧ (processFiles ctx inClosed room records w).out = records.take k := by
  induction records with
  | nil =>
    intro ctx inClosed room w k hk hck _ _ _
    have : k = 0 := by simpa using hk
    subst this
    simp [processFiles, hck]
  | cons f rest ih =>
    intro ctx inClosed room w k hk hck hbefore hroom herr
    cases k with
    | zero => simp [processFiles, hck]
    | succ k =>
      have h0 : ctx 0 = false := hbefore 0 (by omega)
      cases hp : (processFile w f).2 with
      | some e =>
        rw [processFiles_failed ctx inClosed room f rest w h0 e hp] at herr
        simp at herr
      | none =>
        have hr0 := room_ne_zero room k hroom
        rw [processFiles_step ctx inClosed room f rest w h0 hp hr0] at herr ⊢
        have := ih (fun n => ctx (n + 1)) inClosed (roomAfterSend room) (processFile w f).1 k
          (by simpa using hk) hck (fun n hn => hbefore (n + 1) (by omega))
          (roomAfterSend_enough room k hroom) herr
        simpa using this

theorem processFiles_open_input (records : List File) :
    ∀ (ctx : Nat → Bool) (room : Option Nat) (w : World),
      (processFiles ctx false room records w).closed = false
      ∧ ((processFiles ctx false room records w).ending = Ending.returned →
          (processFiles ctx false room records w).err ≠ none
          ∨ ∃ k, k ≤ records.length ∧ ctx k = true) := by
  induction records with
  | nil =>
    intro ctx room w
    by_cases h0 : ctx 0 = true
    · simp [processFiles, h0]
    · simp [processFiles, h0]
  | cons f rest ih =>
    intro ctx room w
    by_cases h0 : ctx 0 = true
    · refine ⟨by simp [processFiles, h0], fun _ => Or.inr ⟨0, by simp, h0⟩⟩
    · simp only [Bool.not_eq_true] at h0
      cases hp : (processFile w f).2 with
      | some e =>
        rw [processFiles_failed ctx false room f rest w h0 e hp]
        simp
      | none =>
        by_cases hroom : room = some 0
        · subst hroom
          rw [processFiles_full ctx false f rest w h0 hp]
          simp
        · rw [processFiles_step ctx false room f rest w h0 hp hroom]
          obtain ⟨i1, i2⟩ := ih (fun n => ctx (n + 1)) (roomAfterSend room) (processFile w f).1
          refine ⟨i1, ?_⟩
          intro hret
          rcases i2 hret with he | ⟨k, hk, hck⟩
          · exact Or.inl he
          · exact Or.inr ⟨k + 1, by simpa using hk, hck⟩

theorem evaluateFiles_cancelled (fs : FS) (mode : Action) (files : List FileInfo) :
    ∀ (ctx : Nat → Bool) (room : Option Nat) (g : Globals) (k : Nat), k < files.length →
      ctx k = true → (∀ n, n < k → ctx n = false) →
      (∀ f ∈ files.take k, hashOf fs g.baseDir f ≠ none) →
      (∀ n, room = some n → k ≤ n) →
      (evaluateFiles fs ctx room mode files g).ending = Ending.returned
      ∧ (evaluateFiles fs ctx room mode files g).closed = false
      ∧ (evaluateFiles fs ctx room mode files g).out.length = k := by
  induction files with
  | nil => intro ctx room g k hk; simp at hk
  | cons file rest ih =>
    intro ctx room g k hk hck hbefore hhash hroom
    cases k with
    | zero => simp [evaluateFiles, hck]
    | succ k =>
      have h0 : ctx 0 = false := hbefore 0 (by omega)
      cases hm : hashOf fs g.baseDir file with
      | none => exact absurd hm (hhash file (by simp))
      | some md5 =>
        rw [evaluateFiles_step fs ctx room mode file rest g md5 h0 hm (room_ne_zero room k hroom)]
        have := ih (fun n => ctx (n + 1)) (roomAfterSend room) (evaluateFile mode g file md5).1 k
          (by simpa using hk) hck (fun n hn => hbefore (n + 1) (by omega))
          (fun f hf => by
            rw [evaluateFile_baseDir]
            exact hhash f (by simp [hf]))
          (roomAfterSend_enough room k hroom)
        simpa using this

theorem evaluateFiles_blocked (fs : FS) (mode : Action) (files : List FileInfo) :
    ∀ (ctx : Nat → Bool) (g : Globals) (k : Nat), k < files.length →
      (∀ n, n ≤ k → ctx n = false) →
      (∀ f ∈ files.take (k + 1), hashOf fs g.baseDir f ≠ none) →
      (evaluateFiles fs ctx (some k) mode files g).ending = Ending.blocked
      ∧ (evaluateFiles fs ctx (some k) mode files g).closed = false
      ∧ (evaluateFiles fs ctx (some k) mode files g).out.length = k := by
  induction files with
  | nil => intro ctx g k hk; simp at hk
  | cons file rest ih =>
    intro ctx g k hk hctx hhash
    have h0 : ctx 0 = false := hctx 0 (by omega)
    cases hm : hashOf fs g.baseDir file with
    | none => exact absurd hm (hhash file (by simp))
    | some md5 =>
      cases k with
      | zero =>
        rw [evaluateFiles_full fs ctx mode file rest g md5 h0 hm]
        simp
      | succ k =>
        rw [evaluateFiles_step fs ctx (some (k + 1)) mode file rest g md5 h0 hm (by simp)]
        have := ih (fun n => ctx (n + 1)) (evaluateFile mode g file md5).1 k
          (by simpa using hk) (fun n hn => hctx (n + 1) (by omega))
          (fun f hf => by
            rw [evaluateFile_baseDir]
            exact hhash f (by simp [hf]))
        simpa [roomAfterSend] using this

/-! ## Accounting -/

theorem evaluateFile_accounting (mode : Action) (g : Globals) (file : FileInfo) (md5 : String) :
    (evaluateFile mode g file md5).1.evaluatedFileCounter = g.evaluatedFileCounter + 1
    ∧ (evaluateFile mode g file md5).1.totalFileSizeCounter
        = g.totalFileSizeCounter + file.Size
    ∧ (evaluateFile mode g file md5).1.emptyFileCounter
        = g.emptyFileCounter + (if file.Size = 0 then 1 else 0)
    ∧ (evaluateFile mode g file md5).1.duplicateFileCounter
        + (evaluateFile mode g file md5).1.uniqueKeepFiles
        = g.duplicateFileCounter + g.uniqueKeepFiles + 1 := by
  simp only [evaluateFile]
  split <;> split <;> (try split) <;> simp_all <;> omega

theorem evaluateFiles_accounting (fs : FS) (mode : Action) (files : List FileInfo) :
    ∀ (ctx : Nat → Bool) (room : Option Nat) (g : Globals),
      (∀ n, n < files.length → ctx n = false) →
      (∀ f ∈ files, hashOf fs g.baseDir f ≠ none) →
      (∀ n, room = some n → files.length ≤ n) →
      (evaluateFiles fs ctx room mode files g).g.evaluatedFileCounter
          = g.evaluatedFileCounter + files.length
      ∧ (evaluateFiles fs ctx room mode files g).g.totalFileSizeCounter
          = g.totalFileSizeCounter + (files.map FileInfo.Size).sum
      ∧ (evaluateFiles fs ctx room mode files g).g.emptyFileCounter
          = g.emptyFileCounter + files.countP (fun f => decide (f.Size = 0))
      ∧ (evaluateFiles fs ctx room mode files g).g.duplicateFileCounter
          + (evaluateFiles fs ctx room mode files g).g.uniqueKeepFiles
          = g.duplicateFileCounter + g.uniqueKeepFiles + files.length := by
  induction files with
  | nil => intro ctx room g _ _ _; simp [evaluateFiles]
  | cons file rest ih =>
    intro ctx room g hctx hhash hroom
    have h0 : ctx 0 = false := hctx 0 (by simp)
    cases hm : hashOf fs g.baseDir file with
    | none => exact absurd hm (hhash file (by simp))
    | some md5 =>
      rw [evaluateFiles_step fs ctx room mode file rest g md5 h0 hm
        (room_ne_zero room rest.length (by simpa using hroom))]
      obtain ⟨i1, i2, i3, i4⟩ := ih (fun n => ctx (n + 1)) (roomAfterSend room)
        (evaluateFile mode g file md5).1
        (fun n hn => hctx (n + 1) (by simp; omega))
        (fun f hf => by rw [evaluateFile_baseDir]; exact hhash f (by simp [hf]))
        (roomAfterSend_enough room rest.length (by simpa using hroom))
      obtain ⟨a1, a2, a3, a4⟩ := evaluateFile_accounting mode g file md5
      simp only [i1, i2, i3, i4, a1, a2, a3, List.length_cons, List.map_cons, List.sum_cons,
        List.countP_cons]
      refine ⟨by omega, by omega, ?_, by omega⟩
      by_cases hz : file.Size = 0 <;> simp [hz]
      all_goals omega

theorem processFile_fold_counters (records : List File) :
    ∀ (w : World),
      (records.foldl (fun w1 f => (processFile w1 f).1) w).g.processedFileCounter
          = w.g.processedFileCounter
            + records.countP (fun f => decide (f.Action ≠ Action.NoAction))
      ∧ (records.foldl (fun w1 f => (processFile w1 f).1) w).g.processedFileSizeCounter
          = w.g.processedFileSizeCounter
            + ((records.filter (fun f => decide (f.Action ≠ Action.NoAction))).map
                (fun f => f.FileInfo.Size)).sum := by
  induction records with
  | nil => intro w; simp
  | cons f rest ih =>
    intro w
    obtain ⟨h1, h2⟩ := ih (processFile w f).1
    simp only [List.foldl_cons, h1, h2, List.countP_cons, List.filter_cons]
    by_cases hA : f.Action = Action.NoAction
    · obtain ⟨c1, c2⟩ := (processFile_counters w f).2 hA
      simp [hA, c1, c2]
    · obtain ⟨c1, c2⟩ := (processFile_counters w f).1 hA
      simp [hA, c1, c2]
      omega

theorem processFiles_counters_dry_run_independent (records : List File) (inClosed : Bool)
    (w wdry : World)
    (hc : wdry.g.processedFileCounter = w.g.processedFileCounter)
    (hs : wdry.g.processedFileSizeCounter = w.g.processedFileSizeCounter)
    (hreal : (processFiles (fun _ => false) inClosed none records w).err = none)
    (hdry : (processFiles (fun _ => false) inClosed none records wdry).err = none) :
    (processFiles (fun _ => false) inClosed none records wdry).w.g.processedFileCounter
        = (processFiles (fun _ => false) inClosed none records w).w.g.processedFileCounter
    ∧ (processFiles (fun _ => false) inClosed none records wdry).w.g.processedFileSizeCounter
        = (processFiles (fun _ => false) inClosed none records w).w.g.processedFileSizeCounter := by
  have h1 := (processFiles_run records (fun _ => false) inClosed none w (fun _ _ => rfl)
    (fun n hn => by cases hn) hreal).2.2.1
  have h2 := (processFiles_run records (fun _ => false) inClosed none wdry (fun _ _ => rfl)
    (fun n hn => by cases hn) hdry).2.2.1
  rw [h1, h2]
  obtain ⟨a1, a2⟩ := processFile_fold_counters records w
  obtain ⟨b1, b2⟩ := processFile_fold_counters records wdry
  rw [a1, a2, b1, b2, hc, hs]
  exact ⟨rfl, rfl⟩

/-! ## Paths of scanned files -/

theorem lastElem_after_slash (n : List Char) (hn : '/' ∉ n) :
    ∀ pre : List Char, lastElem (pre ++ '/' :: n) = n := by
  intro pre
  induction pre with
  | nil => simp [lastElem, hn]
  | cons c cs ih => simp [lastElem, ih]

theorem filepathJoin_data (d n : String) :
    (filepathJoin d n).toList = d.toList ++ '/' :: n.toList := by
  simp [filepathJoin, String.toList, String.data_append]

theorem filepathBase_join (d n : String) (hn : '/' ∉ n.toList) :
    filepathBase (filepathJoin d n) = n := by
  simp only [filepathBase, filepathJoin_data, lastElem_after_slash n.toList hn]
  rfl

theorem filepathDir_join (d n : String) (hn : '/' ∉ n.toList) :
    filepathDir (filepathJoin d n) = d := by
  simp only [filepathDir, filepathJoin_data, lastElem_after_slash n.toList hn]
  have : (d.toList ++ '/' :: n.toList).length - n.toList.length - 1 = d.toList.length := by
    simp only [List.length_append, List.length_cons]
    omega
  rw [this, List.take_left']
  · rfl
  · rfl

theorem filepathJoin_inj (d a b : String) (h : filepathJoin d a = filepathJoin d b) : a = b := by
  have h1 : (filepathJoin d a).toList = (filepathJoin d b).toList := by rw [h]
  rw [filepathJoin_data, filepathJoin_data] at h1
  have h2 := List.append_cancel_left h1
  simp only [List.cons.injEq, true_and] at h2
  exact String.ext h2

theorem filepathJoin_ne_self (m x : String) : filepathJoin m x ≠ m := by
  intro h
  have h1 : (filepathJoin m x).toList.length = m.toList.length := by rw [h]
  rw [filepathJoin_data] at h1
  simp only [List.length_append, List.length_cons] at h1
  omega

theorem scanFiles_from_entries (entries : List DirEntry) (g g1 : Globals)
    (files : List FileInfo) (h : scanFiles (Except.ok entries) g = (g1, Except.ok files)) :
    ∀ f ∈ files, ∃ e ∈ entries, hasSupportedSuffix e.Name = true ∧ f.Name = e.Name := by
  simp only [scanFiles] at h
  generalize hloop : scanLoop entries g [] = r at h
  obtain ⟨g2, om⟩ := r
  cases om with
  | none => simp at h
  | some m =>
    simp only [Prod.mk.injEq, Except.ok.injEq] at h
    obtain ⟨rfl, rfl⟩ := h
    obtain ⟨h1, _, _, _⟩ := scanLoop_ok entries g g2 [] m hloop
    simp only [List.nil_append] at h1
    intro f hf
    have hf1 : f ∈ m := (sortSlice_perm lessByNameLen m).mem_iff.mp hf
    rw [h1, List.mem_filterMap] at hf1
    obtain ⟨e, he, hinfo⟩ := hf1
    simp only [keptEntries, List.mem_filter, Bool.and_eq_true] at he
    refine ⟨e, he.1, he.2.2, ?_⟩
    simp only [DirEntry.Info, Option.map_eq_some'] at hinfo
    obtain ⟨s, _, rfl⟩ := hinfo
    rfl

/-! ## Executor: a dry run next to a real run -/

theorem processFile_dry_follows (w wd : World) (r : File) (M : String)
    (hM : filepathJoin (filepathDir r.FilePath) "moved" = M)
    (hp : r.FilePath ≠ M) (hdst : filepathJoin M (filepathBase r.FilePath) ≠ M)
    (hw : w.g.dryRun = false) (hwd : wd.g.dryRun = true) (hfs : wd.fs M = w.fs M)
    (hreal : (processFile w r).2 = none) :
    (processFile wd r).2 = none ∧ (processFile wd r).1.fs M = (processFile w r).1.fs M := by
  cases hA : r.Action
  · simp [processFile, hA, hfs]
  · simp only [processFile, hA, hw, hwd, osRemove] at hreal ⊢
    cases hfp : w.fs r.FilePath with
    | none => simp [hfp] at hreal
    | some n => simp [hfs, FS.set, Ne.symm hp]
  · simp only [processFile, hA, hw, hwd, createMoveFolder, osMkdirAll, hM] at hreal ⊢
    cases hm : w.fs M with
    | none =>
      simp only [hm, hfs] at hreal ⊢
      simp only [Bool.false_eq_true, if_false, osRename] at hreal ⊢
      refine ⟨by simp, ?_⟩
      cases hold : (w.fs.set M (some Node.dir)) r.FilePath with
      | none => simp [hold] at hreal
      | some n =>
        simp only [hold]
        cases hnew : (w.fs.set M (some Node.dir)) (filepathJoin M (filepathBase r.FilePath)) with
        | none => simp [FS.set, Ne.symm hp, Ne.symm hdst]
        | some k =>
          cases k with
          | dir => simp [hold, hnew] at hreal
          | file s m5 => simp [FS.set, Ne.symm hp, Ne.symm hdst]
    | some k =>
      cases k with
      | file s m5 => simp [hm] at hreal
      | dir =>
        simp only [hm, hfs] at hreal ⊢
        simp only [Bool.false_eq_true, if_false, osRename] at hreal ⊢
        refine ⟨by simp, ?_⟩
        cases hold : w.fs r.FilePath with
        | none => simp [hold] at hreal
        | some n =>
          simp only [hold]
          cases hnew : w.fs (filepathJoin M (filepathBase r.FilePath)) with
          | none => simp [FS.set, Ne.symm hp, Ne.symm hdst, hm, hfs]
          | some k =>
            cases k with
            | dir => simp [hold, hnew] at hreal
            | file s m5 => simp [FS.set, Ne.symm hp, Ne.symm hdst, hm, hfs]

theorem processFiles_dry_follows (M : String) (records : List File) :
    ∀ (ctx : Nat → Bool) (inClosed : Bool) (w wd : World),
      (∀ r ∈ records, filepathJoin (filepathDir r.FilePath) "moved" = M ∧ r.FilePath ≠ M
        ∧ filepathJoin M (filepathBase r.FilePath) ≠ M) →
      (∀ n, ctx n = false) →
      w.g.dryRun = false → wd.g.dryRun = true → wd.fs M = w.fs M →
      (processFiles ctx inClosed none records w).err = none →
      (processFiles ctx inClosed none records wd).err = none := by
  induction records with
  | nil =>
    intro ctx inClosed w wd _ hctx _ _ _ _
    cases inClosed <;> simp [processFiles, hctx 0]
  | cons r rest ih =>
    intro ctx inClosed w wd hpaths hctx hw hwd hfs hreal
    have h0 : ctx 0 = false := hctx 0
    obtain ⟨hM, hp, hdst⟩ := hpaths r (by simp)
    cases hpr : (processFile w r).2 with
    | some e =>
      rw [processFiles_failed ctx inClosed none r rest w h0 e hpr] at hreal
      simp at hreal
    | none =>
      obtain ⟨hd1, hd2⟩ := processFile_dry_follows w wd r M hM hp hdst hw hwd hfs hpr
      rw [processFiles_step ctx inClosed none r rest w h0 hpr (by simp)] at hreal
      rw [processFiles_step ctx inClosed none r rest wd h0 hd1 (by simp)]
      exact ih (fun n => ctx (n + 1)) inClosed (processFile w r).1 (processFile wd r).1
        (fun x hx => hpaths x (by simp [hx])) (fun n => hctx (n + 1))
        (by rw [processFile_dryRun_flag]; exact hw) (by rw [processFile_dryRun_flag]; exact hwd)
        hd2 hreal

theorem evaluated_paths (fs : FS) (ctx : Nat → Bool) (room : Option Nat) (mode : Action)
    (entries : List DirEntry) (g0 g : Globals) (files : List FileInfo)
    (hscan : scanFiles (Except.ok entries) g0 = (g, Except.ok files))
    (hnames : ∀ e ∈ entries, '/' ∉ e.Name.toList) :
    ∀ r ∈ (evaluateFiles fs ctx room mode files g).out,
      filepathJoin (filepathDir r.FilePath) "moved" = filepathJoin g.baseDir "moved"
      ∧ r.FilePath ≠ filepathJoin g.baseDir "moved"
      ∧ filepathJoin (filepathJoin g.baseDir "moved") (filepathBase r.FilePath)
          ≠ filepathJoin g.baseDir "moved" := by
  intro r hr
  obtain ⟨i, hi⟩ := List.mem_iff_getElem?.mp hr
  obtain ⟨file, md5, g1, hfile, _, hbd, rfl⟩ :=
    evaluateFiles_out_source fs mode files ctx room g i r hi
  have hmem : file ∈ files := List.getElem?_mem hfile
  obtain ⟨e, he, hsuf, hname⟩ := scanFiles_from_entries entries g0 g files hscan file hmem
  have hslash : '/' ∉ file.Name.toList := by rw [hname]; exact hnames e he
  have hpath := (evaluateFile_record mode g1 file md5).2.2.2
  rw [hbd] at hpath
  rw [hpath, filepathDir_join g.baseDir file.Name hslash]
  refine ⟨rfl, ?_, filepathJoin_ne_self _ _⟩
  intro heq
  have hmoved : file.Name = "moved" := filepathJoin_inj g.baseDir _ _ heq
  rw [hname] at hmoved
  rw [hmoved] at hsuf
  revert hsuf
  decide

/-- C8: executor accounting is independent of dry run. For every record and
every state, with `dryRun` true or false, `processFile` with `Action` Move or
Delete adds exactly 1 to the processed-file counter and exactly the file's
size to the processed-bytes counter, and with `NoAction` changes neither.
Hence for the records `evaluateFiles` emits for a scanned directory (entry
names are plain names, without a separator): when the run without dry run
meets no filesystem error, the dry run over the same records from the same
filesystem and counters meets none either, and its processed-file and
processed-bytes counters equal those of the real run. -/
theorem executor_accounting_dry_run_independent (entries : List DirEntry) (g0 g : Globals)
    (files : List FileInfo) (fs : FS) (ctx : Nat → Bool) (room : Option Nat) (mode : Action)
    (inClosed : Bool) (w wdry : World)
    (hscan : scanFiles (Except.ok entries) g0 = (g, Except.ok files))
    (hnames : ∀ e ∈ entries, '/' ∉ e.Name.toList)
    (hw : w.g.dryRun = false) (hwd : wdry.g.dryRun = true) (hfs : wdry.fs = w.fs)
    (hc : wdry.g.processedFileCounter = w.g.processedFileCounter)
    (hs : wdry.g.processedFileSizeCounter = w.g.processedFileSizeCounter)
    (hreal : (processFiles (fun _ => false) inClosed none
        (evaluateFiles fs ctx room mode files g).out w).err = none) :
    (∀ (w1 : World) (r : File),
        (r.Action = Action.MoveAction ∨ r.Action = Action.DeleteAction →
          (processFile w1 r).1.g.processedFileCounter = w1.g.processedFileCounter + 1
          ∧ (processFile w1 r).1.g.processedFileSizeCounter
              = w1.g.processedFileSizeCounter + r.FileInfo.Size)
        ∧ (r.Action = Action.NoAction →
          (processFile w1 r).1.g.processedFileCounter = w1.g.processedFileCounter
          ∧ (processFile w1 r).1.g.processedFileSizeCounter = w1.g.processedFileSizeCounter))
    ∧ (processFiles (fun _ => false) inClosed none
        (evaluateFiles fs ctx room mode files g).out wdry).err = none
    ∧ (processFiles (fun _ => false) inClosed none
        (evaluateFiles fs ctx room mode files g).out wdry).w.g.processedFileCounter
        = (processFiles (fun _ => false) inClosed none
            (evaluateFiles fs ctx room mode files g).out w).w.g.processedFileCounter
    ∧ (processFiles (fun _ => false) inClosed none
        (evaluateFiles fs ctx room mode files g).out wdry).w.g.processedFileSizeCounter
        = (processFiles (fun _ => false) inClosed none
            (evaluateFiles fs ctx room mode files g).out w).w.g.processedFileSizeCounter := by
  have hdry := processFiles_dry_follows (filepathJoin g.baseDir "moved")
    (evaluateFiles fs ctx room mode files g).out (fun _ => false) inClosed w wdry
    (evaluated_paths fs ctx room mode entries g0 g files hscan hnames) (fun _ => rfl) hw hwd
    (by rw [hfs]) hreal
  have heq := processFiles_counters_dry_run_independent
    (evaluateFiles fs ctx room mode files g).out inClosed w wdry hc hs hreal hdry
  refine ⟨?_, hdry, heq.1, heq.2⟩
  intro w1 r
  refine ⟨?_, (processFile_counters w1 r).2⟩
  intro hA
  apply (processFile_counters w1 r).1
  rcases hA with hA | hA <;> rw [hA] <;> decide

/-! ## The pipeline: order and exactly-once -/

theorem evaluateFiles_records (fs : FS) (mode : Action) (files : List FileInfo) :
    ∀ (ctx : Nat → Bool) (room : Option Nat) (g : Globals),
      (∀ n, n < files.length → ctx n = false) →
      (∀ f ∈ files, hashOf fs g.baseDir f ≠ none) →
      (∀ n, room = some n → files.length ≤ n) →
      (evaluateFiles fs ctx room mode files g).out.map File.FileInfo = files
      ∧ (evaluateFiles fs ctx room mode files g).out.map File.FileName
          = files.map FileInfo.Name := by
  induction files with
  | nil => intro ctx room g _ _ _; simp [evaluateFiles]
  | cons file rest ih =>
    intro ctx room g hctx hhash hroom
    have h0 : ctx 0 = false := hctx 0 (by simp)
    cases hm : hashOf fs g.baseDir file with
    | none => exact absurd hm (hhash file (by simp))
    | some md5 =>
      rw [evaluateFiles_step fs ctx room mode file rest g md5 h0 hm
        (room_ne_zero room rest.length (by simpa using hroom))]
      have := ih (fun n => ctx (n + 1)) (roomAfterSend room) (evaluateFile mode g file md5).1
        (fun n hn => hctx (n + 1) (by simp; omega))
        (fun f hf => by rw [evaluateFile_baseDir]; exact hhash f (by simp [hf]))
        (roomAfterSend_enough room rest.length (by simpa using hroom))
      have hrec := evaluateFile_record mode g file md5
      simp [this.1, this.2, hrec.1, hrec.2.2.1]

/-- C9: with no cancellation, every scanned file readable for hashing and no
error returned by the executor (so that each stage's reader keeps receiving),
`evaluateFiles` emits exactly one record per scanned file, in scan order (the
i-th record carries the i-th file and its name), `processFiles` calls
`processFile` once on each of these records in that order, its final state is
the result of these calls in sequence, and it forwards the same records in
the same order before closing its output. -/
theorem pipeline_order_exactly_once (fs : FS) (mode : Action) (files : List FileInfo)
    (g : Globals)
    (hhash : ∀ f ∈ files, hashOf fs g.baseDir f ≠ none)
    (hok : (processFiles (fun _ => false)
              (evaluateFiles fs (fun _ => false) none mode files g).closed none
              (evaluateFiles fs (fun _ => false) none mode files g).out
              { g := (evaluateFiles fs (fun _ => false) none mode files g).g, fs := fs }).err
            = none) :
    (evaluateFiles fs (fun _ => false) none mode files g).out.length = files.length
    ∧ (evaluateFiles fs (fun _ => false) none mode files g).out.map File.FileInfo = files
    ∧ (evaluateFiles fs (fun _ => false) none mode files g).out.map File.FileName
        = files.map FileInfo.Name
    ∧ (processFiles (fun _ => false)
          (evaluateFiles fs (fun _ => false) none mode files g).closed none
          (evaluateFiles fs (fun _ => false) none mode files g).out
          { g := (evaluateFiles fs (fun _ => false) none mode files g).g, fs := fs }).applied
        = (evaluateFiles fs (fun _ => false) none mode files g).out
    ∧ (processFiles (fun _ => false)
          (evaluateFiles fs (fun _ => false) none mode files g).closed none
          (evaluateFiles fs (fun _ => false) none mode files g).out
          { g := (evaluateFiles fs (fun _ => false) none mode files g).g, fs := fs }).out
        = (evaluateFiles fs (fun _ => false) none mode files g).out
    ∧ (processFiles (fun _ => false)
          (evaluateFiles fs (fun _ => false) none mode files g).closed none
          (evaluateFiles fs (fun _ => false) none mode files g).out
          { g := (evaluateFiles fs (fun _ => false) none mode files g).g, fs := fs }).w
        = (evaluateFiles fs (fun _ => false) none mode files g).out.foldl
            (fun w1 f => (processFile w1 f).1)
            { g := (evaluateFiles fs (fun _ => false) none mode files g).g, fs := fs }
    ∧ (processFiles (fun _ => false)
          (evaluateFiles fs (fun _ => false) none mode files g).closed none
          (evaluateFiles fs (fun _ => false) none mode files g).out
          { g := (evaluateFiles fs (fun _ => false) none mode files g).g, fs := fs }).closed
        = true := by
  have hc := evaluateFiles_complete fs mode files (fun _ => false) none g (fun _ _ => rfl) hhash
    (fun n hn => by cases hn)
  have hr := evaluateFiles_records fs mode files (fun _ => false) none g (fun _ _ => rfl) hhash
    (fun n hn => by cases hn)
  rw [hc.2.1] at hok ⊢
  have hp := processFiles_complete (evaluateFiles fs (fun _ => false) none mode files g).out
    (fun _ => false) none
    { g := (evaluateFiles fs (fun _ => false) none mode files g).g, fs := fs }
    (fun _ _ => rfl) (fun n hn => by cases hn) hok
  exact ⟨hc.2.2, hr.1, hr.2, hp.2.2.2.1, hp.2.2.1, hp.2.2.2.2, hp.2.1⟩

/-- C9 at the scenario's directory in Delete mode. -/
theorem pipeline_order_exactly_once_witness :
    (evaluateFiles fsScenario (fun _ => false) none Action.DeleteAction filesScenario
        (globalsAt false Action.DeleteAction)).out.map File.FileName = ["a.jpg", "c.jpg", "bb.jpg"]
    ∧ (processFiles (fun _ => false)
          (evaluateFiles fsScenario (fun _ => false) none Action.DeleteAction filesScenario
            (globalsAt false Action.DeleteAction)).closed none
          (evaluateFiles fsScenario (fun _ => false) none Action.DeleteAction filesScenario
            (globalsAt false Action.DeleteAction)).out
          { g := (evaluateFiles fsScenario (fun _ => false) none Action.DeleteAction filesScenario
              (globalsAt false Action.DeleteAction)).g, fs := fsScenario }).applied
        = (evaluateFiles fsScenario (fun _ => false) none Action.DeleteAction filesScenario
            (globalsAt false Action.DeleteAction)).out :=
  have h := pipeline_order_exactly_once fsScenario Action.DeleteAction filesScenario
    (globalsAt false Action.DeleteAction) (by decide) (by decide)
  ⟨h.2.2.1, h.2.2.2.1⟩

/-! ## Stage termination -/

/-- C10 (counterexample): when `ctx.Done()` is ready at the first pass of the
loop, `evaluateFiles` returns and `processFiles` returns, and neither has
closed its output channel. -/
theorem stage_cancelled_output_left_open :
    (evaluateFiles fsScenario (fun _ => true) none Action.DeleteAction filesScenario
        (globalsAt false Action.DeleteAction)).ending = Ending.returned
    ∧ (evaluateFiles fsScenario (fun _ => true) none Action.DeleteAction filesScenario
        (globalsAt false Action.DeleteAction)).closed = false
    ∧ (processFiles (fun _ => true) true none []
        (worldAt false Action.DeleteAction fsScenario)).ending = Ending.returned
    ∧ (processFiles (fun _ => true) true none []
        (worldAt false Action.DeleteAction fsScenario)).closed = false := by
  decide

/-- C10 amended. Sends complete as long as the channel has room (`room`).
A stage that returns because its input is exhausted has closed its output
channel before returning: `evaluateFiles` after the last file, and
`processFiles`, which observes its closed input, after draining it. A stage
that returns because `ctx.Done()` fired at pass `k` returns with the `k`
records it had sent and leaves its output channel open. A `processFiles`
whose input channel was left open never closes its own output, and it returns
only on an executor error or by taking the `ctx.Done()` case itself. -/
theorem stage_termination (fs : FS) (mode : Action) (files : List FileInfo) (g : Globals)
    (records : List File) (w : World) (ctx : Nat → Bool) (inClosed : Bool)
    (room : Option Nat) :
    ((∀ n, ctx n = false) → (∀ f ∈ files, hashOf fs g.baseDir f ≠ none) →
        (∀ n, room = some n → files.length ≤ n) →
        (evaluateFiles fs ctx room mode files g).ending = Ending.returned
        ∧ (evaluateFiles fs ctx room mode files g).closed = true)
    ∧ ((∀ n, ctx n = false) → (processFiles ctx true room records w).err = none →
        (∀ n, room = some n → records.length ≤ n) →
        (processFiles ctx true room records w).ending = Ending.returned
        ∧ (processFiles ctx true room records w).closed = true
        ∧ (processFiles ctx true room records w).out = records)
    ∧ (∀ k, k < files.length → ctx k = true → (∀ n, n < k → ctx n = false) →
        (∀ f ∈ files.take k, hashOf fs g.baseDir f ≠ none) →
        (∀ n, room = some n → k ≤ n) →
        (evaluateFiles fs ctx room mode files g).ending = Ending.returned
        ∧ (evaluateFiles fs ctx room mode files g).closed = false
        ∧ (evaluateFiles fs ctx room mode files g).out.length = k)
    ∧ (∀ k, k ≤ records.length → ctx k = true → (∀ n, n < k → ctx n = false) →
        (processFiles ctx inClosed room records w).err = none →
        (∀ n, room = some n → k ≤ n) →
        (processFiles ctx inClosed room records w).ending = Ending.returned
        ∧ (processFiles ctx inClosed room records w).closed = false
        ∧ (processFiles ctx inClosed room records w).out = records.take k)
    ∧ ((processFiles ctx false room records w).closed = false
        ∧ ((processFiles ctx false room records w).ending = Ending.returned →
            (processFiles ctx false room records w).err ≠ none
            ∨ ∃ k, k ≤ records.length ∧ ctx k = true)) := by
  refine ⟨?_, ?_, ?_, ?_, ?_⟩
  · intro hctx hhash hroom
    have h := evaluateFiles_complete fs mode files ctx room g (fun n _ => hctx n) hhash hroom
    exact ⟨h.1, h.2.1⟩
  · intro hctx herr hroom
    have h := processFiles_complete records ctx room w (fun n _ => hctx n) hroom herr
    exact ⟨h.1, h.2.1, h.2.2.1⟩
  · intro k hk hck hbefore hhash hroom
    exact evaluateFiles_cancelled fs mode files ctx room g k hk hck hbefore hhash hroom
  · intro k hk hck hbefore herr hroom
    exact processFiles_cancelled records ctx inClosed room w k hk hck hbefore hroom herr
  · exact processFiles_open_input records ctx room w

/-- C10 amended, at the scenario's directory in Delete mode without dry run:
the classifier and the executor of a run without cancellation, both stages
cancelled at their second pass, and the executor on an input channel that was
left open. -/
theorem stage_termination_witness :
    ((evaluateFiles fsScenario (fun _ => false) none Action.DeleteAction filesScenario
        (globalsAt false Action.DeleteAction)).ending = Ending.returned
      ∧ (evaluateFiles fsScenario (fun _ => false) none Action.DeleteAction filesScenario
        (globalsAt false Action.DeleteAction)).closed = true)
    ∧ ((processFiles (fun _ => false) true none recordsScenario
        (worldAt false Action.DeleteAction fsScenario)).ending = Ending.returned
      ∧ (processFiles (fun _ => false) true none recordsScenario
        (worldAt false Action.DeleteAction fsScenario)).closed = true
      ∧ (processFiles (fun _ => false) true none recordsScenario
        (worldAt false Action.DeleteAction fsScenario)).out = recordsScenario)
    ∧ ((evaluateFiles fsScenario (fun n => decide (n = 1)) none Action.DeleteAction filesScenario
        (globalsAt false Action.DeleteAction)).ending = Ending.returned
      ∧ (evaluateFiles fsScenario (fun n => decide (n = 1)) none Action.DeleteAction
        filesScenario (globalsAt false Action.DeleteAction)).closed = false
      ∧ (evaluateFiles fsScenario (fun n => decide (n = 1)) none Action.DeleteAction
        filesScenario (globalsAt false Action.DeleteAction)).out.length = 1)
    ∧ ((processFiles (fun n => decide (n = 1)) false none recordsScenario
        (worldAt false Action.DeleteAction fsScenario)).ending = Ending.returned
      ∧ (processFiles (fun n => decide (n = 1)) false none recordsScenario
        (worldAt false Action.DeleteAction fsScenario)).closed = false
      ∧ (processFiles (fun n => decide (n = 1)) false none recordsScenario
        (worldAt false Action.DeleteAction fsScenario)).out = recordsScenario.take 1)
    ∧ ((processFiles (fun _ => false) false none recordsScenario
        (worldAt false Action.DeleteAction fsScenario)).closed = false
      ∧ (processFiles (fun _ => false) false none recordsScenario
        (worldAt false Action.DeleteAction fsScenario)).ending = Ending.blocked) :=
  ⟨(stage_termination fsScenario Action.DeleteAction filesScenario
      (globalsAt false Action.DeleteAction) recordsScenario
      (worldAt false Action.DeleteAction fsScenario) (fun _ => false) true none).1
      (fun _ => rfl) (by decide) (fun n hn => by cases hn),
   (stage_termination fsScenario Action.DeleteAction filesScenario
      (globalsAt false Action.DeleteAction) recordsScenario
      (worldAt false Action.DeleteAction fsScenario) (fun _ => false) true none).2.1
      (fun _ => rfl) (by decide) (fun n hn => by cases hn),
   (stage_termination fsScenario Action.DeleteAction filesScenario
      (globalsAt false Action.DeleteAction) recordsScenario
      (worldAt false Action.DeleteAction fsScenario) (fun n => decide (n = 1)) false none).2.2.1
      1 (by decide) (by decide)
      (fun n hn => by
        have : n = 0 := by omega
        subst this
        decide) (by decide) (fun n hn => by cases hn),
   (stage_termination fsScenario Action.DeleteAction filesScenario
      (globalsAt false Action.DeleteAction) recordsScenario
      (worldAt false Action.DeleteAction fsScenario) (fun n => decide (n = 1)) false none).2.2.2.1
      1 (by decide) (by decide)
      (fun n hn => by
        have : n = 0 := by omega
        subst this
        decide) (by decide) (fun n hn => by cases hn),
   (stage_termination fsScenario Action.DeleteAction filesScenario
      (globalsAt false Action.DeleteAction) recordsScenario
      (worldAt false Action.DeleteAction fsScenario) (fun _ => false) false none).2.2.2.2.1,
   by decide⟩

/-! ## Executor: dry run -/

/-- C2: `processFile` in dry-run mode on a record with `Action = MoveAction`.
The directory `d/moved` does not exist before the call and exists after it,
although no error is returned and the file itself stays where it was: the
call to `createMoveFolder` comes before the test of `dryRun`. The whole
pipeline run in dry-run Move mode over the scenario's directory creates
`d/moved` the same way. -/
theorem processFile_dry_run_creates_moved :
    fsScenario "d/moved" = none
    ∧ (processFile (worldAt true Action.MoveAction fsScenario)
        (recordOf "bb.jpg" 100 md5X Action.MoveAction Reason.DuplicateReason)).2 = none
    ∧ (processFile (worldAt true Action.MoveAction fsScenario)
        (recordOf "bb.jpg" 100 md5X Action.MoveAction Reason.DuplicateReason)).1.fs "d/moved"
        = some Node.dir
    ∧ (processFile (worldAt true Action.MoveAction fsScenario)
        (recordOf "bb.jpg" 100 md5X Action.MoveAction Reason.DuplicateReason)).1.fs "d/bb.jpg"
        = some (Node.file 100 md5X)
    ∧ (runPipeline (Except.ok listingScenario)
        (worldAt true Action.MoveAction fsScenario)).w.fs "d/moved" = some Node.dir := by
  decide

/-- Remark on records that no run produces: `processFiles` applied to three
hand-built records with two different actions, the first of them for a
regular file named `moved` (delete `d/moved`, then move `d/a.jpg` and
`d/bb.jpg`). The real run meets no error and counts 3 files and 210 bytes;
the dry run stops at the second record, where `createMoveFolder` fails
because `d/moved` is still a file, and counts 2 files and 110 bytes. The
scanner never returns a file named `moved` and a run has one mode. -/
theorem processFiles_hand_built_records_remark :
    (processFiles (fun _ => false) true none recordsMovedIsFile
        (worldAt false Action.DeleteAction fsMovedIsFile)).err = none
    ∧ (processFiles (fun _ => false) true none recordsMovedIsFile
        (worldAt false Action.DeleteAction fsMovedIsFile)).w.g.processedFileCounter = 3
    ∧ (processFiles (fun _ => false) true none recordsMovedIsFile
        (worldAt false Action.DeleteAction fsMovedIsFile)).w.g.processedFileSizeCounter = 210
    ∧ (processFiles (fun _ => false) true none recordsMovedIsFile
        (worldAt true Action.DeleteAction fsMovedIsFile)).err = some OsError.notDir
    ∧ (processFiles (fun _ => false) true none recordsMovedIsFile
        (worldAt true Action.DeleteAction fsMovedIsFile)).w.g.processedFileCounter = 2
    ∧ (processFiles (fun _ => false) true none recordsMovedIsFile
        (worldAt true Action.DeleteAction fsMovedIsFile)).w.g.processedFileSizeCounter = 110 := by
  decide

/-! ## Classifier: zero-byte files and the duplicate table -/

/-- C5: classifying the single zero-byte file `c.jpg` from an empty duplicate
table. Afterwards the table holds, under the file's hash, the record of that
zero-byte file: the branch that inserts into `allMD5` is also taken when the
file is empty. -/
theorem zero_byte_file_enters_table :
    (globalsAt false Action.DeleteAction).allMD5 md5Empty = none
    ∧ (evaluateFiles fsScenario (fun _ => false) none Action.DeleteAction
        [{ Name := "c.jpg", Size := 0 }] (globalsAt false Action.DeleteAction)).g.allMD5 md5Empty
        = some (recordOf "c.jpg" 0 md5Empty Action.DeleteAction Reason.ZeroByteReason)
    ∧ (recordOf "c.jpg" 0 md5Empty Action.DeleteAction Reason.ZeroByteReason).FileInfo.Size = 0 := by
  decide

/-- C6: the counters after `evaluateFiles` has classified the scenario's
directory (`a.jpg` and `bb.jpg` with the same content, `c.jpg` empty) from
zeroed counters, in scan order and in the order the specification lists:
evaluated = 3, empty = 1, duplicate = 1, and unique-kept = 2, because the
empty file is counted as empty and as unique-kept. -/
theorem scenario_counters :
    (scanFiles (Except.ok listingScenario) (globalsAt false Action.DeleteAction)).2
        = Except.ok filesScenario
    ∧ (evaluateFiles fsScenario (fun _ => false) none Action.DeleteAction filesScenario
        (globalsAt false Action.DeleteAction)).g.evaluatedFileCounter = 3
    ∧ (evaluateFiles fsScenario (fun _ => false) none Action.DeleteAction filesScenario
        (globalsAt false Action.DeleteAction)).g.emptyFileCounter = 1
    ∧ (evaluateFiles fsScenario (fun _ => false) none Action.DeleteAction filesScenario
        (globalsAt false Action.DeleteAction)).g.duplicateFileCounter = 1
    ∧ (evaluateFiles fsScenario (fun _ => false) none Action.DeleteAction filesScenario
        (globalsAt false Action.DeleteAction)).g.uniqueKeepFiles = 2
    ∧ (evaluateFiles fsScenario (fun _ => false) none Action.DeleteAction filesScenarioSpecOrder
        (globalsAt false Action.DeleteAction)).g.evaluatedFileCounter = 3
    ∧ (evaluateFiles fsScenario (fun _ => false) none Action.DeleteAction filesScenarioSpecOrder
        (globalsAt false Action.DeleteAction)).g.emptyFileCounter = 1
    ∧ (evaluateFiles fsScenario (fun _ => false) none Action.DeleteAction filesScenarioSpecOrder
        (globalsAt false Action.DeleteAction)).g.duplicateFileCounter = 1
    ∧ (evaluateFiles fsScenario (fun _ => false) none Action.DeleteAction filesScenarioSpecOrder
        (globalsAt false Action.DeleteAction)).g.uniqueKeepFiles = 2 :=
  ⟨rfl, by decide⟩

/-! ## Two runs in one process -/

/-- C4: the pipeline run twice in one process over a directory that holds the
single non-empty file `a.jpg`, in Delete mode without dry run. The first run
keeps `a.jpg`. The second run starts from the package-level state the first
run left (one file evaluated, `allMD5` holding `a.jpg`), classifies `a.jpg`
as a duplicate of itself and deletes it. -/
theorem second_run_deletes_kept_file :
    (runPipeline (Except.ok listingSingle) (worldAt false Action.DeleteAction fsSingle)).evaluated
        = [recordOf "a.jpg" 100 md5X Action.NoAction Reason.NoReason]
    ∧ (runPipeline (Except.ok listingSingle)
        (worldAt false Action.DeleteAction fsSingle)).w.fs "d/a.jpg" = some (Node.file 100 md5X)
    ∧ (runPipeline (Except.ok listingSingle)
        (worldAt false Action.DeleteAction fsSingle)).w.g.evaluatedFileCounter = 1
    ∧ (runPipeline (Except.ok listingSingle)
        (worldAt false Action.DeleteAction fsSingle)).w.g.allMD5 md5X
        = some (recordOf "a.jpg" 100 md5X Action.NoAction Reason.NoReason)
    ∧ (runPipeline (Except.ok listingSingle)
        (runPipeline (Except.ok listingSingle)
          (worldAt false Action.DeleteAction fsSingle)).w).evaluated
        = [recordOf "a.jpg" 100 md5X Action.DeleteAction Reason.DuplicateReason]
    ∧ (runPipeline (Except.ok listingSingle)
        (runPipeline (Except.ok listingSingle)
          (worldAt false Action.DeleteAction fsSingle)).w).w.fs "d/a.jpg" = none := by
  decide

/-! ## Witnesses for the scanner and the classifier -/

/-- C3 at a concrete input: the empty `c.jpg` classified while the duplicate
table already holds an entry for its hash. -/
theorem evaluateFiles_zero_byte_witness :
    globalsSeenEmpty.allMD5 md5Empty ≠ none
    ∧ (evaluateFiles fsScenario (fun _ => false) none Action.DeleteAction
        [{ Name := "c.jpg", Size := 0 }] globalsSeenEmpty).out[0]?
        = some (recordOf "c.jpg" 0 md5Empty Action.DeleteAction Reason.ZeroByteReason)
    ∧ ((recordOf "c.jpg" 0 md5Empty Action.DeleteAction Reason.ZeroByteReason).Action
          = Action.DeleteAction
        ∧ (recordOf "c.jpg" 0 md5Empty Action.DeleteAction Reason.ZeroByteReason).Reason
          ≠ Reason.DuplicateReason) :=
  have h := evaluateFiles_zero_byte fsScenario (fun _ => false) none Action.DeleteAction
    [{ Name := "c.jpg", Size := 0 }] globalsSeenEmpty 0 { Name := "c.jpg", Size := 0 }
    (recordOf "c.jpg" 0 md5Empty Action.DeleteAction Reason.ZeroByteReason)
    (by decide) (by decide) (by decide)
  ⟨by decide, by decide, h.2.1, h.2.2.2⟩

/-- C1 at the scenario's directory (`a.jpg` is kept and `bb.jpg` is a
duplicate of `a.jpg`) and at a directory with the single file `a.jpg` (it is
kept). -/
theorem evaluateFiles_first_seen_wins_witness :
    (∃ ra,
      (evaluateFiles fsScenario (fun _ => false) none Action.DeleteAction filesScenario
        (globalsAt false Action.DeleteAction)).out[0]? = some ra
      ∧ ra.FileName = "a.jpg" ∧ ra.FilePath = filepathJoin "d" "a.jpg"
      ∧ ra.Action = Action.NoAction ∧ ra.Reason = Reason.NoReason
      ∧ ∃ rb,
        (evaluateFiles fsScenario (fun _ => false) none Action.DeleteAction filesScenario
          (globalsAt false Action.DeleteAction)).out[2]? = some rb
        ∧ rb.FileName = "bb.jpg" ∧ rb.Action = Action.DeleteAction
        ∧ rb.Reason = Reason.DuplicateReason
        ∧ rb.OriginalFilePath = ra.FilePath ∧ rb.OriginalFileName = ra.FileName)
    ∧ (∃ ra,
      (evaluateFiles fsSingle (fun _ => false) none Action.DeleteAction
        [{ Name := "a.jpg", Size := 100 }] (globalsAt false Action.DeleteAction)).out[0]?
        = some ra
      ∧ ra.FileName = "a.jpg" ∧ ra.Action = Action.NoAction ∧ ra.Reason = Reason.NoReason) :=
  have h1 := evaluateFiles_first_seen_wins fsScenario (fun _ => false) none Action.DeleteAction
    filesScenario (globalsAt false Action.DeleteAction) md5X 0 { Name := "a.jpg", Size := 100 }
    (fun _ => rfl) (by decide) (by decide) (by decide) (by decide)
    (fun k _ hk => absurd hk (Nat.not_lt_zero k))
  have h2 := evaluateFiles_first_seen_wins fsSingle (fun _ => false) none Action.DeleteAction
    [{ Name := "a.jpg", Size := 100 }] (globalsAt false Action.DeleteAction) md5X 0
    { Name := "a.jpg", Size := 100 }
    (fun _ => rfl) (by decide) (by decide) (by decide) (by decide)
    (fun k _ hk => absurd hk (Nat.not_lt_zero k))
  ⟨h1.elim (fun ra hra => ⟨ra, hra.1, hra.2.1, hra.2.2.1, hra.2.2.2.1, hra.2.2.2.2.1,
      hra.2.2.2.2.2 2 { Name := "bb.jpg", Size := 100 } (by decide) (by decide) (by decide)⟩),
   h2.elim (fun ra hra => ⟨ra, hra.1, hra.2.1, hra.2.2.2.1, hra.2.2.2.2.1⟩)⟩

/-- C8 at the scenario's directory in Move mode: the real run and the dry run
both count 2 files and 100 bytes. -/
theorem executor_accounting_dry_run_independent_witness :
    (processFiles (fun _ => false) true none
        (evaluateFiles fsScenario (fun _ => false) none Action.MoveAction filesScenario
          (scanFiles (Except.ok listingScenario) (globalsAt false Action.MoveAction)).1).out
        (worldAt false Action.MoveAction fsScenario)).err = none
    ∧ (processFiles (fun _ => false) true none
        (evaluateFiles fsScenario (fun _ => false) none Action.MoveAction filesScenario
          (scanFiles (Except.ok listingScenario) (globalsAt false Action.MoveAction)).1).out
        (worldAt false Action.MoveAction fsScenario)).w.g.processedFileCounter = 2
    ∧ (processFiles (fun _ => false) true none
        (evaluateFiles fsScenario (fun _ => false) none Action.MoveAction filesScenario
          (scanFiles (Except.ok listingScenario) (globalsAt false Action.MoveAction)).1).out
        (worldAt true Action.MoveAction fsScenario)).err = none
    ∧ (processFiles (fun _ => false) true none
        (evaluateFiles fsScenario (fun _ => false) none Action.MoveAction filesScenario
          (scanFiles (Except.ok listingScenario) (globalsAt false Action.MoveAction)).1).out
        (worldAt true Action.MoveAction fsScenario)).w.g.processedFileCounter
        = (processFiles (fun _ => false) true none
            (evaluateFiles fsScenario (fun _ => false) none Action.MoveAction filesScenario
              (scanFiles (Except.ok listingScenario) (globalsAt false Action.MoveAction)).1).out
            (worldAt false Action.MoveAction fsScenario)).w.g.processedFileCounter
    ∧ (processFiles (fun _ => false) true none
        (evaluateFiles fsScenario (fun _ => false) none Action.MoveAction filesScenario
          (scanFiles (Except.ok listingScenario) (globalsAt false Action.MoveAction)).1).out
        (worldAt true Action.MoveAction fsScenario)).w.g.processedFileSizeCounter
        = (processFiles (fun _ => false) true none
            (evaluateFiles fsScenario (fun _ => false) none Action.MoveAction filesScenario
              (scanFiles (Except.ok listingScenario) (globalsAt false Action.MoveAction)).1).out
            (worldAt false Action.MoveAction fsScenario)).w.g.processedFileSizeCounter :=
  have h := executor_accounting_dry_run_independent listingScenario
    (globalsAt false Action.MoveAction)
    (scanFiles (Except.ok listingScenario) (globalsAt false Action.MoveAction)).1
    filesScenario fsScenario (fun _ => false) none Action.MoveAction true
    (worldAt false Action.MoveAction fsScenario) (worldAt true Action.MoveAction fsScenario)
    rfl (by decide) rfl rfl rfl rfl rfl (by decide)
  ⟨by decide, by decide, h.2.1, h.2.2.1, h.2.2.2⟩
end Cleaner
